import Mathlib

/-!
# Verification of the esp-idf-part partition-table codec and validator

This file is a shallow embedding, in Lean 4, of the Rust sources of the
`esp-idf-part` library (`src/lib.rs`, `src/partition/mod.rs`,
`src/partition/de.rs`, `src/error.rs`), together with theorems settling a
fixed list of claims about the library.

Modelling conventions:

* Bytes are `Nat` values below 256; byte buffers are `List Nat`.
* Rust `u32` values are `Nat`s; wherever the source can overflow or
  underflow (which panics in debug builds), the model returns a distinguished
  `panicked` outcome instead of wrapping.
* Strings are Lean `String`s; the byte-level string operations of the source
  (`trim_matches`, `from_utf8_lossy`, UTF-8 encoding of names) are modelled
  character-per-byte, which is exact for ASCII data (all partition names and
  CSV fields exercised by the claims are ASCII).
* Fallible Rust functions returning `Result<_, Error>` are modelled with the
  `Res` type below, which also has a `panicked` constructor for the
  `unwrap()` / `assert!` / arithmetic-overflow panics present in the source.
* The CSV surface is modelled at the row level: the external `csv` crate
  (comment handling, quoting, whitespace trimming, field splitting) delivers
  each row to this library as a list of field strings, and `write_record`
  receives field strings.  `try_from_str` is therefore modelled as a function
  on lists of `CsvRow`s, and `to_csv` as a function producing them.
* MD5 is implemented in full (RFC 1321) so that checksum behaviour is
  computable and the checksum theorems are about the real digest.
* The tree under `src/` mixes two revisions of the crate: `partition/mod.rs`
  declares `Partition.flags : Flags` (a bitmask with ENCRYPTED = bit 0 and
  READONLY = bit 1) while `partition/de.rs` still deserializes a single
  `encrypted: bool` and `error.rs` lacks the `PartitionTooLarge`,
  `MultipleOtadataPartitions` and `InvalidOtadataPartitionSize` variants that
  `lib.rs` constructs.  The model keeps `flags` as the partition field (as in
  `partition/mod.rs`), lifts the deserializers' `encrypted` boolean to the
  ENCRYPTED bit (the only bit they can produce), and includes the three error
  variants used by `lib.rs` with the names the spec gives them.
-/

set_option maxHeartbeats 1000000

set_option maxRecDepth 100000

/-- Little-endian byte decomposition of a 32-bit value (`u32::to_le_bytes`). -/
def le32 (n : Nat) : List Nat :=
  [n % 256, n / 256 % 256, n / 65536 % 256, n / 16777216 % 256]

/-- Little-endian recomposition of four bytes into a 32-bit value. -/
def fromLe32 (b0 b1 b2 b3 : Nat) : Nat :=
  b0 + 256 * b1 + 65536 * b2 + 16777216 * b3

/-- Little-endian byte decomposition of a 64-bit value (used by MD5 padding). -/
def le64 (n : Nat) : List Nat :=
  le32 (n % 4294967296) ++ le32 (n / 4294967296 % 4294967296)

/-- `slice::chunks_exact(32)`: split a buffer into consecutive 32-byte
chunks, dropping any final incomplete chunk. -/
def chunks32 (bs : List Nat) : List (List Nat) :=
  (List.range (bs.length / 32)).map (fun i => (bs.drop (32 * i)).take 32)

/-- The supported partition types (`Type` in `partition/mod.rs`; renamed
because `Type` is a Lean keyword). `Custom` carries the raw type byte. -/
inductive PartType where
  | App : PartType
  | Data : PartType
  | Custom : Nat → PartType
deriving DecidableEq

/-- The supported partition subtypes (`SubType` in `partition/mod.rs`).
The `AppType` and `DataType` enum variants are represented by their
discriminant bytes; validity of the discriminant is tracked by
`appTypeReprs` / `dataTypeReprs` below. -/
inductive SubType where
  | App : Nat → SubType
  | Data : Nat → SubType
  | Custom : Nat → SubType
deriving DecidableEq

/-- `impl From<u8> for Type` (`partition/mod.rs`). -/
def typeFromU8 (ty : Nat) : PartType :=
  if ty = 0x00 then .App
  else if ty = 0x01 then .Data
  else .Custom ty

/-- `impl From<Type> for u8` (`partition/mod.rs`). -/
def typeToU8 : PartType → Nat
  | .App => 0x00
  | .Data => 0x01
  | .Custom ty => ty

/-- `impl From<SubType> for u8` (`partition/mod.rs`): every variant exposes
its discriminant byte. -/
def subTypeToU8 : SubType → Nat
  | .App n => n
  | .Data n => n
  | .Custom n => n

/-- Name/discriminant table of the `AppType` enum (`partition/mod.rs`),
with the snake_case serialization names used by strum and serde. -/
def appTypeTable : List (String × Nat) :=
  [("factory", 0x00),
   ("ota_0", 0x10), ("ota_1", 0x11), ("ota_2", 0x12), ("ota_3", 0x13),
   ("ota_4", 0x14), ("ota_5", 0x15), ("ota_6", 0x16), ("ota_7", 0x17),
   ("ota_8", 0x18), ("ota_9", 0x19), ("ota_10", 0x1A), ("ota_11", 0x1B),
   ("ota_12", 0x1C), ("ota_13", 0x1D), ("ota_14", 0x1E), ("ota_15", 0x1F),
   ("test", 0x20)]

/-- Name/discriminant table of the `DataType` enum (`partition/mod.rs`);
`EfuseEm` serializes as "efuse". -/
def dataTypeTable : List (String × Nat) :=
  [("ota", 0x00), ("phy", 0x01), ("nvs", 0x02), ("coredump", 0x03),
   ("nvs_keys", 0x04), ("efuse", 0x05), ("undefined", 0x06),
   ("esphttpd", 0x80), ("fat", 0x81), ("spiffs", 0x82), ("littlefs", 0x83)]

/-- The valid discriminants of `AppType`. -/
def appTypeReprs : List Nat := appTypeTable.map (·.2)

/-- The valid discriminants of `DataType`. -/
def dataTypeReprs : List Nat := dataTypeTable.map (·.2)

/-- `AppType::from_repr` (strum `FromRepr`). -/
def appTypeFromRepr (n : Nat) : Option Nat :=
  if n ∈ appTypeReprs then some n else none

/-- `DataType::from_repr` (strum `FromRepr`). -/
def dataTypeFromRepr (n : Nat) : Option Nat :=
  if n ∈ dataTypeReprs then some n else none

/-- `AppType::from_str` (strum `EnumString`, snake_case). -/
def appTypeFromStr (s : String) : Option Nat :=
  (appTypeTable.find? (·.1 = s)).map (·.2)

/-- `DataType::from_str` (strum `EnumString`, snake_case). -/
def dataTypeFromStr (s : String) : Option Nat :=
  (dataTypeTable.find? (·.1 = s)).map (·.2)

/-- serde_plain serialization of an `AppType` discriminant (its snake_case
name); empty for discriminants that are not valid `AppType` values. -/
def appTypeName (n : Nat) : String :=
  ((appTypeTable.find? (·.2 = n)).map (·.1)).getD ""

/-- serde_plain serialization of a `DataType` discriminant. -/
def dataTypeName (n : Nat) : String :=
  ((dataTypeTable.find? (·.2 = n)).map (·.1)).getD ""

/-- `Flags::ENCRYPTED` (`partition/mod.rs`). -/
def ENCRYPTED : Nat := 1

/-- `Flags::READONLY` (`partition/mod.rs`). -/
def READONLY : Nat := 2

/-- `bitflags` `contains`: all bits of `b` are set in `f`. -/
def flagsContains (f b : Nat) : Bool := f &&& b = b

/-- `APP_PARTITION_ALIGNMENT` (`partition/mod.rs`). -/
def APP_PARTITION_ALIGNMENT : Nat := 0x10000

/-- `DATA_PARTITION_ALIGNMENT` (`partition/mod.rs`). -/
def DATA_PARTITION_ALIGNMENT : Nat := 0x1000

/-- `MAX_NAME_LEN` (`partition/mod.rs`). -/
def MAX_NAME_LEN : Nat := 16

/-- `Partition` (`partition/mod.rs`): one row of the table.  `flags` is the
`Flags` bitmask stored as a `Nat` (`Flags::bits()`). -/
structure Partition where
  name : String
  ty : PartType
  subtype : SubType
  offset : Nat
  size : Nat
  flags : Nat
deriving DecidableEq

/-- The error enum (`error.rs`).  The `PartitionTooLarge`,
`MultipleOtadataPartitions` and `InvalidOtadataPartitionSize` variants are
constructed by `lib.rs` but missing from the (stale) `error.rs` in the tree;
they are included here with the names the spec uses for them.  `CsvError`
and `DekuError` wrap foreign errors; the model keeps their message text. -/
inductive Error where
  | DuplicatePartitions : String → Error
  | InvalidChecksum : List Nat → List Nat → Error
  | InvalidPartitionTable : Error
  | LengthNotMultipleOf32 : Error
  | MultipleFactoryPartitions : Error
  | NoAppPartition : Error
  | NoEndMarker : Error
  | OverlappingPartitions : String → String → Error
  | UnalignedPartition : Error
  | PartitionTooLarge : String → Error
  | MultipleOtadataPartitions : Error
  | InvalidOtadataPartitionSize : Error
  | CsvError : String → Error
  | DekuError : String → Error
  | FromUtf8Error : Error
deriving DecidableEq

/-- Result of a Rust function that can fail with a typed error or panic
(`unwrap`, `assert!`, or arithmetic overflow in debug builds). -/
inductive Res (α : Type) where
  | ok : α → Res α
  | err : Error → Res α
  | panicked : Res α
deriving DecidableEq

/-- `u32::MAX`. -/
def U32_MAX : Nat := 4294967295

/-- Rust `u32` addition: `some` of the sum when it is representable,
`none` for the overflow panic (debug builds; release builds would wrap). -/
def addU32 (a b : Nat) : Option Nat :=
  if a + b ≤ U32_MAX then some (a + b) else none

/-- `Partition::overlaps` (`partition/mod.rs`):
`max(self.offset, other.offset) < min(self.offset + self.size, other.offset + other.size)`,
where both extent sums are `u32` additions — an overflowing sum panics
(`none`) rather than producing a comparison result. -/
def overlaps (a b : Partition) : Option Bool :=
  match addU32 a.offset a.size, addU32 b.offset b.size with
  | some ea, some eb => some (max a.offset b.offset < min ea eb)
  | _, _ => none

/-! ## MD5 (RFC 1321), used by the `md-5` crate in `lib.rs` -/

/-- 32-bit modular addition. -/
def add32 (a b : Nat) : Nat := (a + b) % 4294967296

/-- 32-bit bitwise complement. -/
def not32 (x : Nat) : Nat := 4294967295 ^^^ x

/-- 32-bit left rotation (for `x < 2^32`, `n ≤ 32`). -/
def rotl32 (x n : Nat) : Nat :=
  ((x <<< n) ||| (x >>> (32 - n))) % 4294967296

/-- The 64 MD5 sine-derived constants `K[i]`. -/
def md5K : List Nat :=
  [0xd76aa478, 0xe8c7b756, 0x242070db, 0xc1bdceee,
   0xf57c0faf, 0x4787c62a, 0xa8304613, 0xfd469501,
   0x698098d8, 0x8b44f7af, 0xffff5bb1, 0x895cd7be,
   0x6b901122, 0xfd987193, 0xa679438e, 0x49b40821,
   0xf61e2562, 0xc040b340, 0x265e5a51, 0xe9b6c7aa,
   0xd62f105d, 0x02441453, 0xd8a1e681, 0xe7d3fbc8,
   0x21e1cde6, 0xc33707d6, 0xf4d50d87, 0x455a14ed,
   0xa9e3e905, 0xfcefa3f8, 0x676f02d9, 0x8d2a4c8a,
   0xfffa3942, 0x8771f681, 0x6d9d6122, 0xfde5380c,
   0xa4beea44, 0x4bdecfa9, 0xf6bb4b60, 0xbebfbc70,
   0x289b7ec6, 0xeaa127fa, 0xd4ef3085, 0x04881d05,
   0xd9d4d039, 0xe6db99e5, 0x1fa27cf8, 0xc4ac5665,
   0xf4292244, 0x432aff97, 0xab9423a7, 0xfc93a039,
   0x655b59c3, 0x8f0ccc92, 0xffeff47d, 0x85845dd1,
   0x6fa87e4f, 0xfe2ce6e0, 0xa3014314, 0x4e0811a1,
   0xf7537e82, 0xbd3af235, 0x2ad7d2bb, 0xeb86d391]

/-- The 64 MD5 per-step left-rotation amounts `s[i]`. -/
def md5S : List Nat :=
  [7, 12, 17, 22, 7, 12, 17, 22, 7, 12, 17, 22, 7, 12, 17, 22,
   5, 9, 14, 20, 5, 9, 14, 20, 5, 9, 14, 20, 5, 9, 14, 20,
   4, 11, 16, 23, 4, 11, 16, 23, 4, 11, 16, 23, 4, 11, 16, 23,
   6, 10, 15, 21, 6, 10, 15, 21, 6, 10, 15, 21, 6, 10, 15, 21]

/-- The MD5 round function for step `i`. -/
def md5F (b c d i : Nat) : Nat :=
  if i < 16 then (b &&& c) ||| (not32 b &&& d)
  else if i < 32 then (d &&& b) ||| (not32 d &&& c)
  else if i < 48 then b ^^^ c ^^^ d
  else c ^^^ (b ||| not32 d)

/-- The MD5 message-word index for step `i`. -/
def md5g (i : Nat) : Nat :=
  if i < 16 then i
  else if i < 32 then (5 * i + 1) % 16
  else if i < 48 then (3 * i + 5) % 16
  else (7 * i) % 16

/-- One MD5 step on the working state. -/
def md5Step (w : List Nat) (st : Nat × Nat × Nat × Nat) (i : Nat) :
    Nat × Nat × Nat × Nat :=
  match st with
  | (a, b, c, d) =>
    let f := add32 (add32 (add32 (md5F b c d i) a) (md5K.getD i 0))
      (w.getD (md5g i) 0)
    (d, add32 b (rotl32 f (md5S.getD i 0)), b, c)

/-- Process one 64-byte block (given as 16 little-endian 32-bit words). -/
def md5Block (st : Nat × Nat × Nat × Nat) (w : List Nat) :
    Nat × Nat × Nat × Nat :=
  match st, (List.range 64).foldl (md5Step w) st with
  | (a0, b0, c0, d0), (a, b, c, d) =>
    (add32 a0 a, add32 b0 b, add32 c0 c, add32 d0 d)

/-- Split a padded MD5 message into 64-byte blocks of 16 LE words each. -/
def md5Words (bs : List Nat) : List Nat :=
  match bs with
  | b0 :: b1 :: b2 :: b3 :: rest => fromLe32 b0 b1 b2 b3 :: md5Words rest
  | _ => []

/-- `chunks_exact(64)` for the padded MD5 message. -/
def chunks64 (bs : List Nat) : List (List Nat) :=
  (List.range (bs.length / 64)).map (fun i => (bs.drop (64 * i)).take 64)

/-- MD5 padding: append `0x80`, zero bytes up to 56 mod 64, then the
64-bit little-endian bit length. -/
def md5Pad (bs : List Nat) : List Nat :=
  bs ++ [0x80] ++ List.replicate ((119 - bs.length % 64) % 64) 0
    ++ le64 (8 * bs.length)

/-- The MD5 digest of a byte sequence, as 16 bytes. -/
def md5 (bs : List Nat) : List Nat :=
  match (chunks64 (md5Pad bs)).foldl (fun st blk => md5Block st (md5Words blk))
    (0x67452301, 0xefcdab89, 0x98badcfe, 0x10325476) with
  | (a, b, c, d) => le32 a ++ le32 b ++ le32 c ++ le32 d

/-! ## String helpers (byte-level model of the source's string operations) -/

/-- The UTF-8 bytes of a string, modelled character-per-byte (exact for
ASCII). -/
def strBytes (s : String) : List Nat := s.data.map Char.toNat

/-- Bytes back to a string (`String::from_utf8_lossy`), modelled
byte-per-character (exact for ASCII input). -/
def bytesToStr (bs : List Nat) : String :=
  String.mk (bs.map Char.ofNat)

/-- `str::trim_matches(char::from(0))`: strip NUL characters from both ends. -/
def trimNulls (s : String) : String :=
  String.mk (((s.data.dropWhile (· = Char.ofNat 0)).reverse.dropWhile
    (· = Char.ofNat 0)).reverse)

/-! ## Binary encoding (`Partition::write_bin`, `PartitionTable::to_bin`) -/

/-- The magic bytes of a binary partition record (`partition/mod.rs`). -/
def MAGIC_BYTES : List Nat := [0xAA, 0x50]

/-- The 16-byte checksum-record marker `MD5_PART_MAGIC_BYTES` (`lib.rs`). -/
def MD5_PART_MAGIC_BYTES : List Nat :=
  [0xEB, 0xEB, 0xFF, 0xFF, 0xFF, 0xFF, 0xFF, 0xFF,
   0xFF, 0xFF, 0xFF, 0xFF, 0xFF, 0xFF, 0xFF, 0xFF]

/-- The all-`0xFF` end-marker record (`END_MARKER` in `lib.rs`). -/
def END_MARKER : List Nat := List.replicate 32 0xFF

/-- `PARTITION_SIZE` (`lib.rs`). -/
def PARTITION_SIZE : Nat := 32

/-- The 16-byte NUL-padded name field written by `write_bin`: the name's
bytes zipped into a zeroed 16-byte buffer. -/
def padName16 (name : String) : List Nat :=
  let bs := strBytes name
  bs.take 16 ++ List.replicate (16 - bs.length) 0

/-- `Partition::write_bin` (`partition/mod.rs`): magic, type byte, subtype
byte, LE offset, LE size, 16-byte padded name, LE `flags.bits()`. -/
def writeBin (p : Partition) : List Nat :=
  MAGIC_BYTES ++ [typeToU8 p.ty, subTypeToU8 p.subtype]
    ++ le32 p.offset ++ le32 p.size ++ padName16 p.name ++ le32 p.flags

/-- `PartitionTable::to_bin` (`lib.rs`): every record through the MD5
`HashWriter`, then the checksum record, then `0xFF` padding up to `0xC00`
bytes.  The padding length `0xC00 - written` is a `usize` subtraction and
panics (in debug builds) when `written` exceeds `0xC00`. -/
def toBin (ps : List Partition) : Res (List Nat) :=
  let records := (ps.map writeBin).flatten
  let written := ps.length * PARTITION_SIZE + 32
  if 0xC00 < written then .panicked
  else .ok (records ++ MD5_PART_MAGIC_BYTES ++ md5 records
    ++ List.replicate (0xC00 - written) 0xFF)

/-! ## Binary decoding (`DeserializedBinPartition`, `try_from_bytes`) -/

/-- `DeserializedBinPartition` (`partition/de.rs`): the deku-parsed fields
of one binary record.  deku reads, in order: the 2-byte magic, `ty: u8`,
`subtype: u8`, `offset: Option<u32>` (4 LE bytes, always `Some`),
`size: u32`, `name: [u8; 16]`, and `encrypted: bool` (one byte that must be
0 or 1); the remaining 3 bytes of the 32-byte record are not read. -/
structure DeserializedBinPartition where
  ty : Nat
  subtype : Nat
  offset : Option Nat
  size : Nat
  name : List Nat
  encrypted : Bool
deriving DecidableEq

/-- `DeserializedBinPartition::from_bytes` (deku) on one 32-byte record. -/
def parseBinRecord (line : List Nat) : Except Error DeserializedBinPartition :=
  match line with
  | m0 :: m1 :: ty :: st :: o0 :: o1 :: o2 :: o3 :: s0 :: s1 :: s2 :: s3 :: rest =>
    if m0 = 0xAA ∧ m1 = 0x50 then
      let name := rest.take 16
      match rest.drop 16 with
      | eb :: _ =>
        if eb = 0 then
          .ok ⟨ty, st, some (fromLe32 o0 o1 o2 o3), fromLe32 s0 s1 s2 s3, name, false⟩
        else if eb = 1 then
          .ok ⟨ty, st, some (fromLe32 o0 o1 o2 o3), fromLe32 s0 s1 s2 s3, name, true⟩
        else .error (.DekuError "cannot parse bool value")
      | [] => .error (.DekuError "incomplete data")
    else .error (.DekuError "magic mismatch")
  | _ => .error (.DekuError "incomplete data")

/-- `SubType::app` (`partition/mod.rs`): `AppType::from_repr(value).unwrap()`
— `none` models the panic of `unwrap` on an invalid discriminant. -/
def subTypeApp (value : Nat) : Option SubType :=
  (appTypeFromRepr value).map SubType.App

/-- `SubType::data` (`partition/mod.rs`): `DataType::from_repr(value).unwrap()`. -/
def subTypeData (value : Nat) : Option SubType :=
  (dataTypeFromRepr value).map SubType.Data

/-- `impl From<DeserializedBinPartition> for Partition` (`partition/de.rs`).
`none` models a panic (the `assert!(offset.is_some())` or the `unwrap`
inside `SubType::app` / `SubType::data`).  The deserializer produces only an
`encrypted` boolean; the partition's `flags` bitmask receives exactly the
ENCRYPTED bit. -/
def partitionOfBin (part : DeserializedBinPartition) : Option Partition := do
  let offset ← part.offset
  let ty := typeFromU8 part.ty
  let subtype ← match ty with
    | .App => subTypeApp part.subtype
    | .Data => subTypeData part.subtype
    | .Custom _ => some (SubType.Custom part.subtype)
  some { name := trimNulls (bytesToStr part.name)
         ty := ty
         subtype := subtype
         offset := offset
         size := part.size
         flags := if part.encrypted then ENCRYPTED else 0 }

/-! ## The validator (`PartitionTable::validate`, `lib.rs`) -/

/-- `MAX_APP_PART_SIZE` (`lib.rs`): 16 MB. -/
def MAX_APP_PART_SIZE : Nat := 0x1000000

/-- `OTADATA_SIZE` (`lib.rs`): 8 kB. -/
def OTADATA_SIZE : Nat := 0x2000

/-- The first three checks of `validate`: at least one app partition, at
most one app/factory partition, at most one data/ota partition. -/
def validateStage123 (ps : List Partition) : Option Error :=
  if (ps.find? (fun p => p.ty = .App)).isNone then
    some .NoAppPartition
  else if 1 < (ps.filter (fun p =>
      p.ty = .App ∧ p.subtype = .App 0x00)).length then
    some .MultipleFactoryPartitions
  else if 1 < (ps.filter (fun p =>
      p.ty = .Data ∧ p.subtype = .Data 0x00)).length then
    some .MultipleOtadataPartitions
  else none

/-- The body of `validate`'s per-partition loop: the four checks (app
alignment, data alignment, app size, otadata size), in source order. -/
def partitionCheck (p : Partition) : Option Error :=
  if p.ty = .App ∧ p.offset % APP_PARTITION_ALIGNMENT ≠ 0 then
    some .UnalignedPartition
  else if p.ty = .Data ∧ p.offset % DATA_PARTITION_ALIGNMENT ≠ 0 then
    some .UnalignedPartition
  else if p.ty = .App ∧ MAX_APP_PART_SIZE < p.size then
    some (.PartitionTooLarge p.name)
  else if p.ty = .Data ∧ p.subtype = .Data 0x00 ∧ p.size ≠ OTADATA_SIZE then
    some .InvalidOtadataPartitionSize
  else none

/-- `validate`'s per-partition loop: first failing partition wins. -/
def validateEach : List Partition → Option Error
  | [] => none
  | p :: rest =>
    match partitionCheck p with
    | some e => some e
    | none => validateEach rest

/-- The inner loop of `validate`'s pairwise scan for a fixed `a`: pairs
whose two sides are equal *by value* are skipped; otherwise the name check
runs before the overlap check, whose `u32` extent additions can panic. -/
def pairScanInner (a : Partition) : List Partition → Res Unit
  | [] => .ok ()
  | b :: rest =>
    if a = b then pairScanInner a rest
    else if a.name = b.name then .err (.DuplicatePartitions a.name)
    else
      match overlaps a b with
      | none => .panicked
      | some true => .err (.OverlappingPartitions a.name b.name)
      | some false => pairScanInner a rest

/-- The outer loop of `validate`'s pairwise scan. -/
def pairScan (ps : List Partition) : List Partition → Res Unit
  | [] => .ok ()
  | a :: rest =>
    match pairScanInner a ps with
    | .ok () => pairScan ps rest
    | r => r

/-- `PartitionTable::validate` (`lib.rs`): stage 1–3 checks, then the
per-partition loop (checks 4–7), then the pairwise scan (checks 8–9);
the scan's overlap test can panic on `u32` extent overflow. -/
def validate (ps : List Partition) : Res Unit :=
  match validateStage123 ps with
  | some e => .err e
  | none =>
    match validateEach ps with
    | some e => .err e
    | none => pairScan ps ps

/-- `PartitionTable::try_from_bytes` (`lib.rs`): scan 32-byte records,
checking checksum records against the running MD5 of all partition-record
bytes seen so far, stopping at the all-`0xFF` end marker (then validating),
and otherwise parsing a partition record.  `acc` is the byte stream fed to
the MD5 context, `parts` the partitions collected so far. -/
def tryFromBytesGo : List (List Nat) → List Partition → List Nat →
    Res (List Partition)
  | [], _, _ => .err .NoEndMarker
  | line :: rest, parts, acc =>
    if line.take 16 = MD5_PART_MAGIC_BYTES then
      let digestInFile := (line.drop 16).take 16
      let digestComputed := md5 acc
      if digestComputed ≠ digestInFile then
        .err (.InvalidChecksum digestInFile digestComputed)
      else tryFromBytesGo rest parts acc
    else if line ≠ END_MARKER then
      match parseBinRecord line with
      | .error e => .err e
      | .ok bp =>
        match partitionOfBin bp with
        | none => .panicked
        | some p => tryFromBytesGo rest (parts ++ [p]) (acc ++ line)
    else
      match validate parts with
      | .err e => .err e
      | .panicked => .panicked
      | .ok () => .ok parts

/-- `PartitionTable::try_from_bytes` (`lib.rs`). -/
def tryFromBytes (data : List Nat) : Res (List Partition) :=
  if data.length % 32 ≠ 0 then .err .LengthNotMultipleOf32
  else tryFromBytesGo (chunks32 data) [] []

/-! ## CSV field deserializers (`partition/de.rs`) -/

/-- Value of one digit character in the given radix. -/
def digitVal (radix : Nat) (c : Char) : Option Nat :=
  let v :=
    if '0' ≤ c ∧ c ≤ '9' then some (c.toNat - 48)
    else if 'a' ≤ c ∧ c ≤ 'f' then some (c.toNat - 87)
    else if 'A' ≤ c ∧ c ≤ 'F' then some (c.toNat - 55)
    else none
  match v with
  | some d => if d < radix then some d else none
  | none => none

/-- Fold a non-empty digit string into its value. -/
def parseDigits (radix : Nat) : List Char → Option Nat
  | [] => none
  | cs => cs.foldl (fun acc c =>
      match acc, digitVal radix c with
      | some a, some d => some (radix * a + d)
      | _, _ => none) (some 0)

/-- `parse_int::parse::<uN>` as used by `partition/de.rs`: decimal or a
`0x`/`0o`/`0b`-prefixed literal, rejecting values above `max` (the integer
type's range).  Signs and underscore separators, which the crate also
accepts, are not exercised by the spec or claims and are not modelled. -/
def parseUint (max : Nat) (s : String) : Option Nat :=
  let cs := s.data
  let body : Nat × List Char :=
    match cs with
    | '0' :: x :: rest =>
      if x = 'x' ∨ x = 'X' then (16, rest)
      else if x = 'o' ∨ x = 'O' then (8, rest)
      else if x = 'b' ∨ x = 'B' then (2, rest)
      else (10, cs)
    | _ => (10, cs)
  match parseDigits body.1 body.2 with
  | some v => if v ≤ max then some v else none
  | none => none

/-- `u8::MAX`. -/
def U8_MAX : Nat := 255

/-- The regex `(?i)^(\d+)([km]{1})$` of `deserialize_partition_offset_or_size`:
a non-empty decimal run followed by exactly one `k`/`K`/`m`/`M`.  Returns the
decimal value (unbounded) and the multiplier. -/
def kmSuffix (s : String) : Option (Nat × Nat) :=
  match s.data.getLast? with
  | none => none
  | some c =>
    let mult :=
      if c = 'k' ∨ c = 'K' then some 1024
      else if c = 'm' ∨ c = 'M' then some 1048576
      else none
    match mult with
    | none => none
    | some m =>
      let ds := s.data.dropLast
      if ds ≠ [] ∧ ds.all (fun d => '0' ≤ d ∧ d ≤ '9') then
        match parseDigits 10 ds with
        | some v => some (v, m)
        | none => none
      else none

/-- `deserialize_partition_offset_or_size` (`partition/de.rs`): empty →
absent; else `parse_int` as `u32`; else the `k`/`m` multiplier form, where
`digits.parse::<u32>().unwrap()` and the `u32` multiplication panic on
overflow (modelled by `panicked`); else a format error. -/
def deserializeOffsetOrSize (s : String) : Res (Option Nat) :=
  if s = "" then .ok none
  else
    match parseUint U32_MAX s with
    | some n => .ok (some n)
    | none =>
      match kmSuffix s with
      | some (digits, mult) =>
        if U32_MAX < digits then .panicked
        else if U32_MAX < digits * mult then .panicked
        else .ok (some (digits * mult))
      | none => .err (.CsvError "invalid partition size/offset format")

/-- `deserialize_partition_name` (`partition/de.rs`): truncate to the first
16 characters, then copy the bytes into a 17-byte zero buffer (one byte
spare for the NUL terminator) and read it back as a (lossy) string. -/
def deserializePartitionName (s : String) : String :=
  let bs := (strBytes s).take MAX_NAME_LEN
  bytesToStr (bs ++ List.replicate (17 - bs.length) 0)

/-- `deserialize_partition_type` (`partition/de.rs`). -/
def deserializePartitionType (s : String) : Except Error PartType :=
  let maybeParsed := parseUint U8_MAX s
  if s = "app" ∨ maybeParsed = some 0x00 then .ok .App
  else if s = "data" ∨ maybeParsed = some 0x01 then .ok .Data
  else
    match maybeParsed with
    | some ty => .ok (.Custom ty)
    | none => .error (.CsvError "invalid partition type")

/-- `deserialize_partition_subtype` (`partition/de.rs`). -/
def deserializePartitionSubtype (s : String) : Except Error SubType :=
  match appTypeFromStr s with
  | some n => .ok (.App n)
  | none =>
    match dataTypeFromStr s with
    | some n => .ok (.Data n)
    | none =>
      match parseUint U8_MAX s with
      | some n => .ok (.Custom n)
      | none => .error (.CsvError "invalid partition subtype")

/-- `deserialize_partition_flags` (`partition/de.rs`): the whole field,
with NULs trimmed, is compared against `"encrypted"`; every other content
(including `"readonly"`, unknown tokens, or colon-joined lists) yields
`false`, and no input is an error. -/
def deserializePartitionFlags (s : String) : Bool :=
  trimNulls s = "encrypted"

/-- One CSV row as the `csv` crate hands it to serde: the six field
strings, the trailing `flags` column optional (`flexible(true)`). -/
structure CsvRow where
  name : String
  ty : String
  subtype : String
  offset : String
  size : String
  flags : Option String
deriving DecidableEq

/-- `DeserializedCsvPartition` (`partition/de.rs`). -/
structure DeserializedCsvPartition where
  name : String
  ty : PartType
  subtype : SubType
  offset : Option Nat
  size : Nat
  encrypted : Bool
deriving DecidableEq

/-- serde deserialization of one `DeserializedCsvPartition` from a CSV row,
running the per-field deserializers; a missing flags column takes the serde
default (`false`). -/
def deserializeRow (row : CsvRow) : Res DeserializedCsvPartition :=
  match deserializePartitionType row.ty with
  | .error e => .err e
  | .ok ty =>
    match deserializePartitionSubtype row.subtype with
    | .error e => .err e
    | .ok subtype =>
      match deserializeOffsetOrSize row.offset with
      | .err e => .err e
      | .panicked => .panicked
      | .ok offset =>
        match deserializeOffsetOrSize row.size with
        | .err e => .err e
        | .panicked => .panicked
        | .ok none => .err (.CsvError "invalid partition size/offset format")
        | .ok (some size) =>
          .ok { name := deserializePartitionName row.name
                ty := ty
                subtype := subtype
                offset := offset
                size := size
                encrypted :=
                  match row.flags with
                  | none => false
                  | some s => deserializePartitionFlags s }

/-- `DeserializedCsvPartition::fix_offset` (`partition/de.rs`): when the
offset field was absent, round the cursor up to the type's alignment
(`0x10000` for app, 4 bytes otherwise) and store it; return
`offset.unwrap() + size` as the next cursor.  Both
`offset + alignment` (in the round-up) and `offset.unwrap() + self.size`
are `u32` additions and panic on overflow (`panicked`). -/
def fixOffset (part : DeserializedCsvPartition) (offset : Nat) :
    Res (DeserializedCsvPartition × Nat) :=
  let fixed : Res DeserializedCsvPartition :=
    if part.offset = none then
      let alignment := if part.ty = .App then APP_PARTITION_ALIGNMENT else 4
      if offset % alignment ≠ 0 then
        match addU32 offset alignment with
        | none => .panicked
        | some s => .ok { part with offset := some (s - offset % alignment) }
      else .ok { part with offset := some offset }
    else .ok part
  match fixed with
  | .ok part =>
    match addU32 (part.offset.getD 0) part.size with
    | none => .panicked
    | some cursor => .ok (part, cursor)
  | .err e => .err e
  | .panicked => .panicked

/-- `impl From<DeserializedCsvPartition> for Partition` (`partition/de.rs`);
`none` models the `assert!`/`unwrap` panics (offset still absent, or an
app/data subtype whose discriminant is not a valid `AppType`/`DataType`).
As with the binary path, the deserializer only carries an `encrypted`
boolean, which becomes the ENCRYPTED bit of `flags`. -/
def partitionOfCsv (part : DeserializedCsvPartition) : Option Partition := do
  let offset ← part.offset
  let subtype ← match part.ty with
    | .App => subTypeApp (subTypeToU8 part.subtype)
    | .Data => subTypeData (subTypeToU8 part.subtype)
    | .Custom _ => some part.subtype
  some { name := trimNulls part.name
         ty := part.ty
         subtype := subtype
         offset := offset
         size := part.size
         flags := if part.encrypted then ENCRYPTED else 0 }

/-- The row loop of `PartitionTable::try_from_str` (`lib.rs`): deserialize
each row, thread the offset cursor through `fix_offset`, convert, collect;
validate at the end. -/
def tryFromCsvRowsGo : List CsvRow → Nat → List Partition →
    Res (List Partition)
  | [], _, parts =>
    match validate parts with
    | .err e => .err e
    | .panicked => .panicked
    | .ok () => .ok parts
  | row :: rest, offset, parts =>
    match deserializeRow row with
    | .err e => .err e
    | .panicked => .panicked
    | .ok rec =>
      match fixOffset rec offset with
      | .err e => .err e
      | .panicked => .panicked
      | .ok fixed =>
        match partitionOfCsv fixed.1 with
        | none => .panicked
        | some p => tryFromCsvRowsGo rest fixed.2 (parts ++ [p])

/-- `PartitionTable::try_from_str` (`lib.rs`), modelled at row granularity
(the `csv` crate's comment/whitespace/quoting layer is external); the
offset cursor starts at `0x9000`. -/
def tryFromCsvRows (rows : List CsvRow) : Res (List Partition) :=
  tryFromCsvRowsGo rows 0x9000 []

/-! ## CSV encoding (`Partition::write_csv`, `PartitionTable::to_csv`) -/

/-- Fuel-driven hex-digit extraction; the fuel only bounds the recursion
depth and `hexChars` always supplies enough. -/
def hexCharsFuel : Nat → Nat → List Char
  | 0, _ => []
  | fuel + 1, n =>
    let d := Char.ofNat (if n % 16 < 10 then 48 + n % 16 else 87 + n % 16)
    if n < 16 then [d] else hexCharsFuel fuel (n / 16) ++ [d]

/-- The hex digits of `n` (lowercase, no leading zeros, `"0"` for 0). -/
def hexChars (n : Nat) : List Char := hexCharsFuel (n + 1) n

/-- Rust `format!("{:#x}", n)`. -/
def fmtHex (n : Nat) : String := String.mk ('0' :: 'x' :: hexChars n)

/-- Rust `format!("{:#04x}", n)` for a byte: `0x` plus two hex digits
(zero-padded to width 4 counting the `0x`). -/
def fmtHex2 (n : Nat) : String :=
  String.mk ('0' :: 'x' :: (if n < 16 then '0' :: hexChars n else hexChars n))

/-- `Display for Type` (`partition/mod.rs`). -/
def typeDisplay : PartType → String
  | .App => "app"
  | .Data => "data"
  | .Custom n => fmtHex2 n

/-- `Display for SubType` (`partition/mod.rs`). -/
def subTypeDisplay : SubType → String
  | .App n => appTypeName n
  | .Data n => dataTypeName n
  | .Custom n => fmtHex2 n

/-- The flags column written by `write_csv` (`partition/mod.rs`): the set
flag names joined by `:`, in the order `encrypted`, `readonly`. -/
def flagsDisplay (f : Nat) : String :=
  String.intercalate ":"
    ((if flagsContains f ENCRYPTED then ["encrypted"] else [])
      ++ (if flagsContains f READONLY then ["readonly"] else []))

/-- `Partition::write_csv` (`partition/mod.rs`): the six field strings of
one row. -/
def writeCsvRow (p : Partition) : CsvRow :=
  { name := p.name
    ty := typeDisplay p.ty
    subtype := subTypeDisplay p.subtype
    offset := fmtHex p.offset
    size := fmtHex p.size
    flags := some (flagsDisplay p.flags) }

/-- `PartitionTable::to_csv` (`lib.rs`) at row granularity: one row per
partition (the two fixed `#` header comment lines live in the text layer
outside the row model and are skipped by the reader as comments). -/
def toCsvRows (ps : List Partition) : List CsvRow :=
  ps.map writeCsvRow

/-! ## Format sniffing (`PartitionTable::try_from`, `lib.rs`) -/

/-- Outcome of `PartitionTable::try_from`: the sniff either panics (the
unchecked two-byte slice `input[..2]`), dispatches to `try_from_bytes`, or
dispatches the raw input to the text path (`String::from_utf8` followed by
`try_from_str`; the byte-to-row CSV layer is modelled separately, so the
dispatch target carries the input). -/
inductive TryFromOutcome where
  | panicked : TryFromOutcome
  | bin : Res (List Partition) → TryFromOutcome
  | text : List Nat → TryFromOutcome
deriving DecidableEq

/-- `PartitionTable::try_from` (`lib.rs`): `input[..2] == [0xAA, 0x50]`
decides the format; the slice itself panics on inputs shorter than two
bytes. -/
def tryFrom (input : List Nat) : TryFromOutcome :=
  if input.length < 2 then .panicked
  else if input.take 2 = MAGIC_BYTES then .bin (tryFromBytes input)
  else .text input

/-! ## The spec-side offset-assignment algorithm (for claim C5) -/

/-- Modelled from the spec: "round the cursor up to that alignment if not
already aligned" (§4.2 offset auto-assignment). -/
def specRoundUp (cursor alignment : Nat) : Nat :=
  if cursor % alignment = 0 then cursor else (cursor / alignment + 1) * alignment

/-- Modelled from the spec: the offset auto-assignment pass exactly as the
spec words it — rows carry (present offset field, size, is-App); absent
offsets receive the rounded cursor, present ones are used unchanged, and
the cursor then becomes offset + size. -/
def specAssignOffsets (cursor : Nat) : List (Option Nat × Nat × Bool) → List Nat
  | [] => []
  | row :: rest =>
    let off :=
      match row.1 with
      | some o => o
      | none => specRoundUp cursor (if row.2.2 then 0x10000 else 4)
    off :: specAssignOffsets (off + row.2.1) rest

/-- The offset pass of `try_from_str`'s row loop (`lib.rs` lines 173–181):
`offset = partition.fix_offset(offset)` threaded over the records, with
`fix_offset`'s overflow panics aborting the pass. -/
def fixOffsetsAll (cursor : Nat) : List DeserializedCsvPartition →
    Res (List DeserializedCsvPartition)
  | [] => .ok []
  | r :: rest =>
    match fixOffset r cursor with
    | .err e => .err e
    | .panicked => .panicked
    | .ok fixed =>
      match fixOffsetsAll fixed.2 rest with
      | .ok out => .ok (fixed.1 :: out)
      | other => other

/-- A 32-byte chunk that the binary scanner treats as a partition record
and that parses and converts without error or panic. -/
def binRecordOk (l : List Nat) : Bool :=
  decide (l.length = 32) && decide (l.take 16 ≠ MD5_PART_MAGIC_BYTES)
    && decide (l ≠ END_MARKER)
    && (match parseBinRecord l with
        | .ok bp => (partitionOfBin bp).isSome
        | .error _ => false)

/-- The partition a well-formed record chunk decodes to. -/
def decodeRecord (l : List Nat) : Option Partition :=
  match parseBinRecord l with
  | .ok bp => partitionOfBin bp
  | .error _ => none

/-- A well-formed app/factory partition used as a concrete fixture. -/
def partFactory : Partition :=
  { name := "factory", ty := .App, subtype := .App 0x00,
    offset := 0x10000, size := 0x10000, flags := 0 }

/-- `partFactory` with one byte of its name changed (`f` → `g`): its
binary record differs from `writeBin partFactory` in exactly byte 12. -/
def partFlipped : Partition :=
  { name := "gactory", ty := .App, subtype := .App 0x00,
    offset := 0x10000, size := 0x10000, flags := 0 }

/-- Decidable equality for `Except`, so that concrete `validate` results
can be checked by `decide`. -/
instance {e a : Type} [DecidableEq e] [DecidableEq a] :
    DecidableEq (Except e a) := fun x y =>
  match x, y with
  | .ok u, .ok v =>
    if h : u = v then isTrue (by rw [h]) else isFalse (by simp [h])
  | .error u, .error v =>
    if h : u = v then isTrue (by rw [h]) else isFalse (by simp [h])
  | .ok _, .error _ => isFalse (by simp)
  | .error _, .ok _ => isFalse (by simp)

/-- A data/ota ("otadata") partition with a wrong size (rule 7 violation). -/
def partOtadataBad : Partition :=
  { name := "otadata", ty := .Data, subtype := .Data 0x00,
    offset := 0x1000, size := 0x1000, flags := 0 }

/-- An app partition at an offset that is not 0x10000-aligned (rule 4
violation). -/
def partAppUnaligned : Partition :=
  { name := "ota_0p", ty := .App, subtype := .App 0x10,
    offset := 0x9000, size := 0x10000, flags := 0 }

/-- Two app/ota partitions sharing the name "ota" but differing in other
fields (distinct as values). -/
def partOtaA : Partition :=
  { name := "ota", ty := .App, subtype := .App 0x10,
    offset := 0x20000, size := 0x10000, flags := 0 }

/-- See `partOtaA`. -/
def partOtaB : Partition :=
  { name := "ota", ty := .App, subtype := .App 0x11,
    offset := 0x30000, size := 0x10000, flags := 0 }

/-- A second app/ota partition, identical in every field with itself when
repeated in a table. -/
def partOta0 : Partition :=
  { name := "ota_0", ty := .App, subtype := .App 0x10,
    offset := 0x20000, size := 0x10000, flags := 0 }

/-- Rule-9 fixture: an app partition spanning `[0x10000, 0x20000)`. -/
def partSpanA : Partition :=
  { name := "a", ty := .App, subtype := .App 0x00,
    offset := 0x10000, size := 0x10000, flags := 0 }

/-- Rule-9 fixture: a data partition spanning `[0x18000, 0x28000)`. -/
def partSpanB1 : Partition :=
  { name := "b", ty := .Data, subtype := .Data 0x02,
    offset := 0x18000, size := 0x10000, flags := 0 }

/-- Rule-9 fixture: a data partition spanning `[0x20000, 0x30000)`. -/
def partSpanB2 : Partition :=
  { name := "b", ty := .Data, subtype := .Data 0x02,
    offset := 0x20000, size := 0x10000, flags := 0 }

/-- A data row with no offset field and size `0x6000` (the spec's concrete
auto-assignment example). -/
def rowNoOffset : DeserializedCsvPartition :=
  { name := "d", ty := .Data, subtype := .Data 0x02,
    offset := none, size := 0x6000, encrypted := false }

/-- A factory row whose flags column holds an arbitrary token. -/
def rowFlagsTest (s : String) : CsvRow :=
  { name := "factory", ty := "app", subtype := "factory",
    offset := "0x10000", size := "0x10000", flags := some s }

/-- Names that survive the CSV text layer and NUL-trimming unchanged: at
most 16 characters, all ASCII-graphic, none of the characters that the
external CSV layer treats specially. -/
def wfName (s : String) : Bool :=
  decide (s.data.length ≤ 16) &&
    s.data.all (fun c => decide (33 ≤ c.toNat) && decide (c.toNat ≤ 126)
      && !(c = ',') && !(c = '"') && !(c = '#') && !(c = ':'))

/-- Partitions representable by both codecs: a well-formed name, a
type/subtype pairing a decoder can produce, `u32`-ranged offset and size
whose sum is also `u32`-representable (so the validator's extent additions
and the CSV cursor addition cannot overflow), and flags the
(encrypted-boolean) deserializers can reproduce. -/
def wfPartition (p : Partition) : Bool :=
  wfName p.name &&
    (match p.ty, p.subtype with
     | .App, .App n => decide (n ∈ appTypeReprs)
     | .Data, .Data n => decide (n ∈ dataTypeReprs)
     | .Custom t, .Custom n =>
       decide (2 ≤ t) && decide (t ≤ 0xFE) && decide (n ≤ 0xFF)
     | _, _ => false) &&
    decide (p.offset ≤ U32_MAX) && decide (p.size ≤ U32_MAX) &&
    decide (p.offset + p.size ≤ U32_MAX) &&
    (decide (p.flags = 0) || decide (p.flags = ENCRYPTED))

def csvRecOf (p : Partition) : DeserializedCsvPartition :=
  { name := deserializePartitionName p.name, ty := p.ty,
    subtype := p.subtype, offset := some p.offset, size := p.size,
    encrypted := decide (p.flags = ENCRYPTED) }

/-- A validated partition carrying the READONLY flag, which neither
decoder can reproduce. -/
def partReadonly : Partition :=
  { name := "factory", ty := .App, subtype := .App 0x00,
    offset := 0x10000, size := 0x10000, flags := READONLY }

/-- An encrypted data/nvs partition used in the C1 witness. -/
def partNvs : Partition :=
  { name := "nvs", ty := .Data, subtype := .Data 0x02,
    offset := 0x9000, size := 0x4000, flags := ENCRYPTED }

/-- A data/nvs partition whose extent `offset + size` exceeds `u32::MAX`
(rules 1–7 do not inspect extents, so it reaches the overlap scan). -/
def partHuge : Partition :=
  { name := "nvs", ty := .Data, subtype := .Data 0x02,
    offset := 0x1000, size := 0xFFFFFFFF, flags := 0 }

/-- A validated app partition whose offset and size each fit in `u32` but
whose extent `offset + size` overflows: the validator never adds them for
a single-partition table, but the CSV cursor pass does. -/
def appHuge : Partition :=
  { name := "h", ty := .App, subtype := .App 0x10,
    offset := 0xFFFF0000, size := 0x1000000, flags := 0 }

/-- A CSV record with a present offset near `u32::MAX`, whose cursor
addition `offset + size` overflows in `fix_offset`. -/
def rowHugeOffset : DeserializedCsvPartition :=
  { name := "h", ty := .Data, subtype := .Data 0x02,
    offset := some 0xFFFFFFF0, size := 0x100, encrypted := false }

/-- A well-formed, validated table of 95 partitions: its binary image is
exactly `0xC00` bytes of records plus checksum, leaving no room for the
`0xFF` end-marker record. -/
def manyParts : List Partition :=
  (List.range 95).map (fun i =>
    { name := "p" ++ fmtHex i, ty := PartType.App,
      subtype := SubType.App 0x10,
      offset := 0x10000 * (i + 1), size := 0x10000, flags := 0 })

/-! ## Theorems -/

/-! ## Helper lemmas -/

theorem chunks32_nil : chunks32 [] = [] := by
  simp [chunks32]

theorem chunks32_append (x rest : List Nat) (hx : x.length = 32) :
    chunks32 (x ++ rest) = x :: chunks32 rest := by
  unfold chunks32
  have h1 : (x ++ rest).length / 32 = rest.length / 32 + 1 := by
    simp only [List.length_append, hx]
    omega
  rw [h1, List.range_succ_eq_map, List.map_cons, List.map_map]
  congr 1
  · rw [Nat.mul_zero, List.drop_zero, ← hx, List.take_left]
  · apply List.map_congr_left
    intro i _hi
    show ((x ++ rest).drop (32 * (i + 1))).take 32 = (rest.drop (32 * i)).take 32
    have h2 : 32 * (i + 1) = 32 + 32 * i := by ring
    rw [h2, ← List.drop_drop, ← hx, List.drop_left]

theorem chunks32_exact (x : List Nat) (hx : x.length = 32) :
    chunks32 x = [x] := by
  have h := chunks32_append x [] hx
  simpa [chunks32_nil] using h

theorem padName16_length (s : String) : (padName16 s).length = 16 := by
  simp only [padName16, List.length_append, List.length_take,
    List.length_replicate, strBytes, List.length_map]
  omega

theorem le32_length (n : Nat) : (le32 n).length = 4 := by
  simp [le32]

theorem writeBin_length (p : Partition) : (writeBin p).length = 32 := by
  simp [writeBin, MAGIC_BYTES, le32_length, padName16_length]

theorem md5_length (bs : List Nat) : (md5 bs).length = 16 := by
  unfold md5
  split
  simp [le32]

theorem fromLe32_le32 (n : Nat) (h : n ≤ U32_MAX) :
    fromLe32 (n % 256) (n / 256 % 256) (n / 65536 % 256) (n / 16777216 % 256) = n := by
  simp only [fromLe32, U32_MAX] at *
  omega

theorem tryFromBytesGo_records (lines : List (List Nat))
    (h : ∀ l ∈ lines, binRecordOk l = true) (rest : List (List Nat))
    (parts : List Partition) (acc : List Nat) :
    tryFromBytesGo (lines ++ rest) parts acc =
      tryFromBytesGo rest (parts ++ lines.filterMap decodeRecord)
        (acc ++ lines.flatten) := by
  induction lines generalizing parts acc with
  | nil => simp
  | cons l ls ih =>
    have hl := h l (by simp)
    simp only [binRecordOk, Bool.and_eq_true, decide_eq_true_eq, ne_eq] at hl
    obtain ⟨⟨⟨hlen, hmagic⟩, hend⟩, hparse⟩ := hl
    simp only [List.cons_append, tryFromBytesGo]
    rw [if_neg hmagic, if_pos (by simpa using hend)]
    match hp : parseBinRecord l with
    | .error e =>
      rw [hp] at hparse
      have h2 : false = true := hparse
      simp at h2
    | .ok bp =>
      rw [hp] at hparse
      have h2 : (partitionOfBin bp).isSome = true := hparse
      match hob : partitionOfBin bp with
      | none =>
        rw [hob] at h2
        simp at h2
      | some p =>
        show (match partitionOfBin bp with
          | none => Res.panicked
          | some q => tryFromBytesGo (ls.append rest) (parts ++ [q]) (acc ++ l)) = _
        rw [hob]
        show tryFromBytesGo (ls ++ rest) (parts ++ [p]) (acc ++ l) = _
        rw [ih (fun x hx => h x (by simp [hx])) (parts ++ [p]) (acc ++ l)]
        simp [List.filterMap_cons, decodeRecord, hp, hob]

theorem flatten_length_32 (lines : List (List Nat))
    (h : ∀ l ∈ lines, l.length = 32) :
    lines.flatten.length = 32 * lines.length := by
  induction lines with
  | nil => simp
  | cons l ls ih =>
    simp only [List.flatten_cons, List.length_append, List.length_cons,
      h l (by simp), ih (fun x hx => h x (by simp [hx]))]
    ring

theorem chunks32_flatten (lines : List (List Nat)) (tail : List Nat)
    (h : ∀ l ∈ lines, l.length = 32) :
    chunks32 (lines.flatten ++ tail) = lines ++ chunks32 tail := by
  induction lines with
  | nil => simp
  | cons l ls ih =>
    simp only [List.flatten_cons, List.append_assoc, List.cons_append]
    rw [chunks32_append _ _ (h l (by simp)),
      ih (fun x hx => h x (by simp [hx]))]

theorem binRecordOk_length (l : List Nat) (h : binRecordOk l = true) :
    l.length = 32 := by
  simp only [binRecordOk, Bool.and_eq_true, decide_eq_true_eq] at h
  exact h.1.1.1

/-- C6 — During binary decoding, when a 32-byte record starts with the
16-byte marker `EB EB FF×14`, its remaining 16 bytes must equal the MD5
digest accumulated over the raw 32 bytes of every partition record seen so
far (marker and padding records excluded); on mismatch decode fails with
`InvalidChecksum` carrying the expected (stored) and computed digests.
Stated for an arbitrary run of well-formed partition records followed by a
checksum record with a wrong stored digest. -/
theorem c6_checksum_mismatch (lines : List (List Nat)) (digest rest : List Nat)
    (hl : ∀ l ∈ lines, binRecordOk l = true)
    (hd : digest.length = 16)
    (hrest : rest.length % 32 = 0)
    (hmis : digest ≠ md5 lines.flatten) :
    tryFromBytes (lines.flatten ++ (MD5_PART_MAGIC_BYTES ++ digest ++ rest)) =
      .err (.InvalidChecksum digest (md5 lines.flatten)) := by
  have hlens : ∀ l ∈ lines, l.length = 32 :=
    fun l h => binRecordOk_length l (hl l h)
  have hflat := flatten_length_32 lines hlens
  have hmd : (MD5_PART_MAGIC_BYTES ++ digest).length = 32 := by
    simp [MD5_PART_MAGIC_BYTES, hd]
  unfold tryFromBytes
  have h16 : MD5_PART_MAGIC_BYTES.length = 16 := rfl
  rw [if_neg (by
    simp only [List.length_append, hflat, h16, hd]
    omega)]
  have hassoc : lines.flatten ++ (MD5_PART_MAGIC_BYTES ++ digest ++ rest) =
      lines.flatten ++ ((MD5_PART_MAGIC_BYTES ++ digest) ++ rest) := by
    simp [List.append_assoc]
  rw [hassoc, chunks32_flatten lines _ hlens,
    chunks32_append _ _ hmd,
    tryFromBytesGo_records lines hl _ [] []]
  simp only [List.nil_append, tryFromBytesGo]
  rw [if_pos (by rw [← h16, List.take_left])]
  have hdrop : (MD5_PART_MAGIC_BYTES ++ digest).drop 16 = digest := by
    rw [← h16, List.drop_left]
  rw [hdrop]
  rw [if_pos (by
    rw [← hd, List.take_length]
    exact fun hcontra => hmis (by rw [hcontra]))]
  rw [← hd, List.take_length]

/-- C6 witness — the concrete one-byte flip: a buffer holding the flipped
record followed by a checksum record storing the digest of the original
record fails with `InvalidChecksum{expected, computed}`. -/
theorem c6_checksum_mismatch_witness :
    binRecordOk (writeBin partFlipped) = true ∧
    (md5 (writeBin partFactory)).length = 16 ∧
    md5 (writeBin partFactory) ≠ md5 [writeBin partFlipped].flatten ∧
    tryFromBytes ([writeBin partFlipped].flatten ++
        (MD5_PART_MAGIC_BYTES ++ md5 (writeBin partFactory) ++ [])) =
      .err (.InvalidChecksum (md5 (writeBin partFactory))
        (md5 [writeBin partFlipped].flatten)) :=
  ⟨by decide, by decide, by decide,
    c6_checksum_mismatch [writeBin partFlipped] (md5 (writeBin partFactory))
      [] (by decide) (by decide) (by decide) (by decide)⟩

/-- C9 counterexample — `PartitionTable::try_from` is not total on short
inputs: on the empty input (and any input shorter than two bytes) the
unchecked slice `input[..2]` panics instead of returning a typed error. -/
theorem c9_short_input_counterexample :
    tryFrom [] = .panicked ∧ tryFrom [0xAA] = .panicked := by
  decide

/-- C9 (amended) — format sniffing reads the first two bytes through the
unchecked slice `input[..2]`, so every input shorter than 2 bytes makes
`try_from` panic (rather than return a typed error); inputs of length ≥ 2
are dispatched on the `0xAA 0x50` magic. -/
theorem c9_short_input_amended (input : List Nat) (h : input.length < 2) :
    tryFrom input = .panicked := by
  unfold tryFrom
  rw [if_pos h]

/-- C9 witness. -/
theorem c9_short_input_amended_witness :
    ([0x41] : List Nat).length < 2 ∧ tryFrom [0x41] = .panicked :=
  ⟨by decide, c9_short_input_amended [0x41] (by decide)⟩

/-- C10 counterexample — a 32-byte partition record with type byte `0x00`
(App) and subtype byte `0x30` (not a valid `AppType` discriminant) makes
`try_from_bytes` panic on the `from_repr(..).unwrap()` inside
`SubType::app`, instead of returning a typed error. -/
theorem c10_unknown_subtype_counterexample :
    tryFromBytes ([0xAA, 0x50, 0x00, 0x30] ++ le32 0x10000 ++ le32 0x1000
      ++ List.replicate 16 0 ++ le32 0) = .panicked := by
  decide

/-- C10 (amended) — binary decoding is **not** total on records with a
known type and an unknown subtype byte: for every 32-byte record with type
code `0x00` (App) and a subtype byte outside the `AppType` discriminants,
or type code `0x01` (Data) and a subtype byte outside the `DataType`
discriminants, the conversion `From<DeserializedBinPartition>` panics on
`from_repr(..).unwrap()`, so `try_from_bytes` panics. -/
theorem c10_unknown_subtype_amended (ty st o0 o1 o2 o3 s0 s1 s2 s3 eb x0 x1 x2 : Nat)
    (name : List Nat) (hname : name.length = 16)
    (heb : eb = 0 ∨ eb = 1)
    (hty : (ty = 0x00 ∧ st ∉ appTypeReprs) ∨ (ty = 0x01 ∧ st ∉ dataTypeReprs)) :
    tryFromBytes ([0xAA, 0x50, ty, st, o0, o1, o2, o3, s0, s1, s2, s3]
      ++ name ++ [eb, x0, x1, x2]) = .panicked := by
  have hlen : ([0xAA, 0x50, ty, st, o0, o1, o2, o3, s0, s1, s2, s3]
      ++ name ++ [eb, x0, x1, x2]).length = 32 := by
    simp [hname]
  unfold tryFromBytes
  rw [if_neg (by rw [hlen]; decide), chunks32_exact _ hlen]
  simp only [List.cons_append, List.nil_append, tryFromBytesGo]
  rw [if_neg (by
    intro hmagic
    have := congrArg (fun l => l.get? 0) hmagic
    simp [MD5_PART_MAGIC_BYTES, List.take] at this)]
  rw [if_pos (by
    intro hend
    have := congrArg (fun l => l.get? 0) hend
    simp [END_MARKER, List.replicate] at this)]
  have htake : (name ++ [eb, x0, x1, x2]).take 16 = name := by
    rw [← hname, List.take_left]
  have hdrop : (name ++ [eb, x0, x1, x2]).drop 16 = [eb, x0, x1, x2] := by
    rw [← hname, List.drop_left]
  have hrec : parseBinRecord (0xAA :: 0x50 :: ty :: st :: o0 :: o1 :: o2 :: o3
      :: s0 :: s1 :: s2 :: s3 :: (name ++ [eb, x0, x1, x2])) =
      .ok ⟨ty, st, some (fromLe32 o0 o1 o2 o3), fromLe32 s0 s1 s2 s3, name,
        eb ≠ 0⟩ := by
    rcases heb with h0 | h1
    · subst h0
      simp [parseBinRecord, htake, hdrop]
    · subst h1
      simp [parseBinRecord, htake, hdrop]
  rw [hrec]
  have hob : partitionOfBin ⟨ty, st, some (fromLe32 o0 o1 o2 o3),
      fromLe32 s0 s1 s2 s3, name, eb ≠ 0⟩ = none := by
    rcases hty with ⟨h0, hst⟩ | ⟨h1, hst⟩
    · subst h0
      simp [partitionOfBin, typeFromU8, subTypeApp, appTypeFromRepr, hst,
        Option.bind]
    · subst h1
      simp [partitionOfBin, typeFromU8, subTypeData, dataTypeFromRepr, hst,
        Option.bind]
  simp only [hob]

/-- C10 witness. -/
theorem c10_unknown_subtype_amended_witness :
    (List.replicate 16 0 : List Nat).length = 16 ∧ ((0 : Nat) = 0 ∨ (0 : Nat) = 1) ∧
    (((0x01 : Nat) = 0x00 ∧ (0x42 : Nat) ∉ appTypeReprs) ∨
      ((0x01 : Nat) = 0x01 ∧ (0x42 : Nat) ∉ dataTypeReprs)) ∧
    tryFromBytes ([0xAA, 0x50, 0x01, 0x42, 0, 0, 1, 0, 0, 16, 0, 0]
      ++ List.replicate 16 0 ++ [0, 0, 0, 0]) = .panicked :=
  ⟨by decide, by decide, by decide,
    c10_unknown_subtype_amended 0x01 0x42 0 0 1 0 0 16 0 0 0 0 0 0
      (List.replicate 16 0) (by decide) (by decide) (by decide)⟩

/-- C4 counterexample — a table of 96 partitions (96 × 32 + 32 = 0xC20 >
0xC00) does not make `to_bin` return a typed error: the `usize`
subtraction `0xC00 - written` underflows and the function panics. -/
theorem c4_to_bin_counterexample :
    toBin (List.replicate 96 partFactory) = .panicked := by
  decide

/-- C4 (amended) — `to_bin` returns a byte vector of exactly `0xC00` bytes
for every table of at most 95 partitions (`n*32 + 32 ≤ 0xC00`); for larger
tables the padding-length `usize` subtraction underflows and `to_bin`
panics instead of returning a typed error. -/
theorem c4_to_bin_amended (ps : List Partition) (h : ps.length ≤ 95) :
    ∃ bs, toBin ps = .ok bs ∧ bs.length = 0xC00 := by
  unfold toBin
  rw [if_neg (by simp only [PARTITION_SIZE]; omega)]
  refine ⟨_, rfl, ?_⟩
  have hrec : ((ps.map writeBin).flatten).length = 32 * ps.length := by
    have := flatten_length_32 (ps.map writeBin) (by
      intro l hl
      obtain ⟨p, _, hp⟩ := List.mem_map.mp hl
      rw [← hp]
      exact writeBin_length p)
    simpa using this
  simp only [List.length_append, hrec, md5_length, List.length_replicate,
    PARTITION_SIZE]
  have h16 : MD5_PART_MAGIC_BYTES.length = 16 := rfl
  rw [h16]
  omega

/-- C4 witness. -/
theorem c4_to_bin_amended_witness :
    ([partFactory].length ≤ 95) ∧
    ∃ bs, toBin [partFactory] = .ok bs ∧ bs.length = 0xC00 :=
  ⟨by decide, c4_to_bin_amended [partFactory] (by decide)⟩

/-- C7 counterexample — the table `[otadata-with-wrong-size, unaligned-app]`
violates rule 4 (an app partition with unaligned offset is present), yet
`validate` returns rule 7's `InvalidOtadataPartitionSize`, because checks
4–7 run per partition in table order, not rule-by-rule over the whole
table as the claim states. -/
theorem c7_order_counterexample :
    validateStage123 [partOtadataBad, partAppUnaligned] = none ∧
    partAppUnaligned ∈ [partOtadataBad, partAppUnaligned] ∧
    partAppUnaligned.ty = .App ∧
    partAppUnaligned.offset % APP_PARTITION_ALIGNMENT ≠ 0 ∧
    validate [partOtadataBad, partAppUnaligned] =
      .err .InvalidOtadataPartitionSize := by
  decide

theorem validateEach_eq (ps : List Partition) (i : Nat) (hi : i < ps.length)
    (e : Error)
    (hprev : ∀ j (hj : j < i),
      partitionCheck (ps.get ⟨j, Nat.lt_trans hj hi⟩) = none)
    (hcur : partitionCheck (ps.get ⟨i, hi⟩) = some e) :
    validateEach ps = some e := by
  induction ps generalizing i with
  | nil => exact absurd hi (by simp)
  | cons p rest ih =>
    cases i with
    | zero =>
      have hp : partitionCheck p = some e := hcur
      simp [validateEach, hp]
    | succ k =>
      have hp : partitionCheck p = none := hprev 0 (Nat.succ_pos k)
      simp only [validateEach, hp]
      exact ih k (Nat.lt_of_succ_lt_succ hi)
        (fun j hj => hprev (j + 1) (Nat.succ_lt_succ hj)) hcur

/-- C7 (amended) — checks 1–3 are evaluated globally in order; checks 4–7
are evaluated per partition in table order (with the per-partition order
4, 5, 6, 7), and the error of the first offending partition is returned —
even when a later partition violates a lower-numbered rule.  If checks 1–3
pass and partition `i` is the first whose per-partition check fails, its
error is the result of `validate`. -/
theorem c7_order_amended (ps : List Partition) (i : Nat) (e : Error)
    (h123 : validateStage123 ps = none)
    (hi : i < ps.length)
    (hprev : ∀ j (hj : j < i),
      partitionCheck (ps.get ⟨j, Nat.lt_trans hj hi⟩) = none)
    (hcur : partitionCheck (ps.get ⟨i, hi⟩) = some e) :
    validate ps = .err e := by
  unfold validate
  rw [h123]
  show (match validateEach ps with
    | some e => Res.err e
    | none => pairScan ps ps) = Res.err e
  rw [validateEach_eq ps i hi e hprev hcur]

/-- C7 witness — the counterexample table through the amended theorem:
partition 0 (the otadata row) is the first offender and its rule-7 error
is returned. -/
theorem c7_order_amended_witness :
    validateStage123 [partOtadataBad, partAppUnaligned] = none ∧
    partitionCheck ([partOtadataBad, partAppUnaligned].get
      ⟨0, by decide⟩) = some .InvalidOtadataPartitionSize ∧
    validate [partOtadataBad, partAppUnaligned] =
      .err .InvalidOtadataPartitionSize :=
  ⟨by decide, by decide,
    c7_order_amended [partOtadataBad, partAppUnaligned] 0
      .InvalidOtadataPartitionSize (by decide) (by decide)
      (fun j hj => absurd hj (Nat.not_lt_zero j)) (by decide)⟩

/-- C2 counterexample — a table whose rows 1 and 2 are identical in every
field (same name at two distinct positions) and which satisfies rules 1–7
passes `validate` entirely: the pairwise loop skips pairs that are equal
*by value* (`if partition_a == partition_b { continue; }`), so the
duplicate name is never reported. -/
theorem c2_duplicate_counterexample :
    validateStage123 [partFactory, partOta0, partOta0] = none ∧
    validateEach [partFactory, partOta0, partOta0] = none ∧
    ([partFactory, partOta0, partOta0].get ⟨1, by decide⟩).name =
      ([partFactory, partOta0, partOta0].get ⟨2, by decide⟩).name ∧
    validate [partFactory, partOta0, partOta0] = .ok () := by
  decide

theorem pairScanInner_none (a : Partition) (ps : List Partition)
    (hdup : ∀ b ∈ ps, b ≠ a → a.name ≠ b.name)
    (hov : ∀ b ∈ ps, b ≠ a → a.name ≠ b.name → overlaps a b = some false) :
    pairScanInner a ps = .ok () := by
  induction ps with
  | nil => rfl
  | cons b rest ih =>
    by_cases hab : a = b
    · simp only [pairScanInner, if_pos hab]
      exact ih (fun x hx => hdup x (by simp [hx]))
        (fun x hx => hov x (by simp [hx]))
    · have hn := hdup b (by simp) (fun hba => hab hba.symm)
      have hovb := hov b (by simp) (fun hba => hab hba.symm) hn
      simp only [pairScanInner, if_neg hab, if_neg hn, hovb]
      exact ih (fun x hx => hdup x (by simp [hx]))
        (fun x hx => hov x (by simp [hx]))

theorem pairScanInner_dup (a : Partition) (ps : List Partition)
    (hov : ∀ b ∈ ps, b ≠ a → a.name ≠ b.name → overlaps a b = some false)
    (hdup : ∃ b ∈ ps, b ≠ a ∧ a.name = b.name) :
    pairScanInner a ps = .err (.DuplicatePartitions a.name) := by
  induction ps with
  | nil => simp at hdup
  | cons b rest ih =>
    by_cases hab : a = b
    · simp only [pairScanInner, if_pos hab]
      apply ih (fun x hx => hov x (by simp [hx]))
      obtain ⟨c, hc, hca, hcn⟩ := hdup
      rcases List.mem_cons.mp hc with hcb | hcr
      · exact absurd (hab.trans hcb.symm).symm hca
      · exact ⟨c, hcr, hca, hcn⟩
    · by_cases hn : a.name = b.name
      · simp only [pairScanInner, if_neg hab, if_pos hn]
      · have hovb := hov b (by simp) (fun hba => hab hba.symm) hn
        simp only [pairScanInner, if_neg hab, if_neg hn, hovb]
        apply ih (fun x hx => hov x (by simp [hx]))
        obtain ⟨c, hc, hca, hcn⟩ := hdup
        rcases List.mem_cons.mp hc with hcb | hcr
        · exact absurd (hcb ▸ hcn) hn
        · exact ⟨c, hcr, hca, hcn⟩

theorem pairScan_finds (full : List Partition) :
    ∀ rest : List Partition,
    (∀ a ∈ rest, ∀ b ∈ full, b ≠ a → a.name ≠ b.name →
      overlaps a b = some false) →
    (∃ a ∈ rest, ∃ b ∈ full, b ≠ a ∧ a.name = b.name) →
    ∃ n, pairScan full rest = .err (.DuplicatePartitions n) ∧
      ∃ a ∈ rest, ∃ b ∈ full, b ≠ a ∧ a.name = n ∧ b.name = n := by
  intro rest
  induction rest with
  | nil => intro _ hdup; simp at hdup
  | cons a rest ih =>
    intro hov hdup
    by_cases ha : ∃ b ∈ full, b ≠ a ∧ a.name = b.name
    · obtain ⟨b, hb, hba, hbn⟩ := ha
      refine ⟨a.name, ?_, a, by simp, b, hb, hba, rfl, hbn.symm⟩
      have hd := pairScanInner_dup a full
        (fun x hx => hov a (by simp) x hx) ⟨b, hb, hba, hbn⟩
      show (match pairScanInner a full with
        | .ok () => pairScan full rest
        | r => r) = Res.err (.DuplicatePartitions a.name)
      rw [hd]
    · push_neg at ha
      have hinner : pairScanInner a full = .ok () :=
        pairScanInner_none a full (fun b hb hba => ha b hb hba)
          (fun b hb hba => hov a (by simp) b hb hba)
      have hstep : pairScan full (a :: rest) = pairScan full rest := by
        show (match pairScanInner a full with
          | .ok () => pairScan full rest
          | r => r) = pairScan full rest
        rw [hinner]
      rw [hstep]
      obtain ⟨n, hscan, a2, ha2, b2, hb2, hba2, hn2, hbn2⟩ :=
        ih (fun x hx => hov x (by simp [hx])) (by
          obtain ⟨c, hc, d, hd, hdc, hcn⟩ := hdup
          rcases List.mem_cons.mp hc with hca | hcr
          · exact absurd (hca ▸ hcn) (ha d hd (hca ▸ hdc))
          · exact ⟨c, hcr, d, hd, hdc, hcn⟩)
      exact ⟨n, hscan, a2, by simp [ha2], b2, hb2, hba2, hn2, hbn2⟩

/-- C2 (amended) — if a table satisfies rules 1–7, every pair of
value-distinct, name-distinct partitions is overlap-free with
`u32`-representable extents (`overlaps` returns `some false`, so the scan
neither reports an overlap nor panics before reaching the duplicate), and
two partitions at distinct positions share a name *while differing in at
least one other field* (distinct as values), then `validate` returns
`DuplicatePartitions` with a shared name of such a pair.  Pairs of rows
identical in every field are skipped by the loop's value-equality guard
and are never reported (see the counterexample). -/
theorem c2_duplicate_amended (ps : List Partition)
    (h123 : validateStage123 ps = none)
    (h47 : validateEach ps = none)
    (hov : ∀ a ∈ ps, ∀ b ∈ ps, b ≠ a → a.name ≠ b.name →
      overlaps a b = some false)
    (hdup : ∃ a ∈ ps, ∃ b ∈ ps, b ≠ a ∧ a.name = b.name) :
    ∃ n, validate ps = .err (.DuplicatePartitions n) ∧
      ∃ a ∈ ps, ∃ b ∈ ps, b ≠ a ∧ a.name = n ∧ b.name = n := by
  obtain ⟨n, hscan, hfacts⟩ := pairScan_finds ps ps hov hdup
  refine ⟨n, ?_, hfacts⟩
  unfold validate
  rw [h123]
  show (match validateEach ps with
    | some e => Res.err e
    | none => pairScan ps ps) = _
  rw [h47]
  show pairScan ps ps = _
  rw [hscan]

/-- C2 witness — two value-distinct partitions named "ota" in a table
satisfying rules 1–7 with no overlaps: `validate` reports
`DuplicatePartitions "ota"`. -/
theorem c2_duplicate_amended_witness :
    validateStage123 [partFactory, partOtaA, partOtaB] = none ∧
    validateEach [partFactory, partOtaA, partOtaB] = none ∧
    (∀ a ∈ [partFactory, partOtaA, partOtaB],
      ∀ b ∈ [partFactory, partOtaA, partOtaB],
        b ≠ a → a.name ≠ b.name → overlaps a b = some false) ∧
    (∃ n, validate [partFactory, partOtaA, partOtaB] =
        .err (.DuplicatePartitions n) ∧
      ∃ a ∈ [partFactory, partOtaA, partOtaB],
        ∃ b ∈ [partFactory, partOtaA, partOtaB],
          b ≠ a ∧ a.name = n ∧ b.name = n) :=
  ⟨by decide, by decide, by decide,
    c2_duplicate_amended [partFactory, partOtaA, partOtaB]
      (by decide) (by decide) (by decide)
      ⟨partOtaA, by decide, partOtaB, by decide, by decide, by decide⟩⟩

theorem overlaps_some (a b : Partition)
    (ha : a.offset + a.size ≤ U32_MAX) (hb : b.offset + b.size ≤ U32_MAX) :
    overlaps a b = some (decide (max a.offset b.offset <
      min (a.offset + a.size) (b.offset + b.size))) := by
  unfold overlaps addU32
  rw [if_pos ha, if_pos hb]

/-- C8 counterexample — rule 9's overlap test adds `offset + size` in
`u32`: for the pair {data/nvs at `0x1000`, size `0xFFFFFFFF`} and the
factory app at `0x10000` (distinct values, distinct names, rules 1–7
satisfied), the half-open extents do intersect mathematically, yet
`validate` panics on the overflowing addition instead of returning
`OverlappingPartitions`, so the claimed biconditional is false of the
program. -/
theorem c8_overlap_counterexample :
    partHuge ≠ partSpanA ∧ partHuge.name ≠ partSpanA.name ∧
    validateStage123 [partHuge, partSpanA] = none ∧
    validateEach [partHuge, partSpanA] = none ∧
    max partHuge.offset partSpanA.offset <
      min (partHuge.offset + partHuge.size)
        (partSpanA.offset + partSpanA.size) ∧
    validate [partHuge, partSpanA] ≠
      .err (.OverlappingPartitions partHuge.name partSpanA.name) ∧
    validate [partHuge, partSpanA] = .panicked := by
  decide

/-- C8 (amended) — rule 9 treats partition extents as half-open ranges
`[offset, offset+size)` *provided both extent sums fit in `u32`*: for a
two-partition table with distinct values and distinct names that passes
rules 1–7 and whose extent additions do not overflow, `validate` fails
with `OverlappingPartitions` exactly when
`max(a.offset, b.offset) < min(a.offset+a.size, b.offset+b.size)`, and
passes exactly otherwise.  When an extent addition overflows, the overlap
test panics instead (see the counterexample). -/
theorem c8_overlap_amended (a b : Partition)
    (hab : a ≠ b) (hn : a.name ≠ b.name)
    (h123 : validateStage123 [a, b] = none)
    (h47 : validateEach [a, b] = none)
    (hea : a.offset + a.size ≤ U32_MAX)
    (heb : b.offset + b.size ≤ U32_MAX) :
    (validate [a, b] = .err (.OverlappingPartitions a.name b.name) ↔
      max a.offset b.offset < min (a.offset + a.size) (b.offset + b.size)) ∧
    (validate [a, b] = .ok () ↔
      ¬ max a.offset b.offset < min (a.offset + a.size) (b.offset + b.size)) := by
  have hvalidate : validate [a, b] = pairScan [a, b] [a, b] := by
    unfold validate
    rw [h123]
    show (match validateEach [a, b] with
      | some e => Res.err e
      | none => pairScan [a, b] [a, b]) = _
    rw [h47]
  have hova := overlaps_some a b hea heb
  have hovb : overlaps b a = some (decide (max a.offset b.offset <
      min (a.offset + a.size) (b.offset + b.size))) := by
    rw [overlaps_some b a heb hea]
    congr 1
    rw [Nat.max_comm, Nat.min_comm]
  by_cases hlt : max a.offset b.offset <
      min (a.offset + a.size) (b.offset + b.size)
  · have hova2 : overlaps a b = some true := by
      rw [hova, decide_eq_true hlt]
    have hscan : pairScan [a, b] [a, b] =
        .err (.OverlappingPartitions a.name b.name) := by
      simp [pairScan, pairScanInner, hab, hn, hova2]
    have hval := hvalidate.trans hscan
    constructor
    · exact ⟨fun _ => hlt, fun _ => hval⟩
    · constructor
      · intro hok
        rw [hval] at hok
        exact absurd hok (by simp)
      · intro hno
        exact absurd hlt hno
  · have hova2 : overlaps a b = some false := by
      rw [hova, decide_eq_false hlt]
    have hovb2 : overlaps b a = some false := by
      rw [hovb, decide_eq_false hlt]
    have hscan : pairScan [a, b] [a, b] = .ok () := by
      simp [pairScan, pairScanInner, hab, Ne.symm hab, hn, Ne.symm hn,
        hova2, hovb2]
    have hval := hvalidate.trans hscan
    constructor
    · constructor
      · intro herr
        rw [hval] at herr
        exact absurd herr (by simp)
      · intro hlt2
        exact absurd hlt2 hlt
    · exact ⟨fun _ => hlt, fun _ => hval⟩

/-- C8 witness — the spec's two concrete cases through the amended
theorem: `[0x10000, 0x20000)` vs `[0x18000, 0x28000)` fails with
`OverlappingPartitions`, while the adjacent `[0x10000, 0x20000)` vs
`[0x20000, 0x30000)` passes; both pairs have `u32`-representable
extents. -/
theorem c8_overlap_amended_witness :
    (partSpanA ≠ partSpanB1 ∧ partSpanA.name ≠ partSpanB1.name ∧
      validateStage123 [partSpanA, partSpanB1] = none ∧
      validateEach [partSpanA, partSpanB1] = none ∧
      partSpanA.offset + partSpanA.size ≤ U32_MAX ∧
      partSpanB1.offset + partSpanB1.size ≤ U32_MAX ∧
      validate [partSpanA, partSpanB1] =
        .err (.OverlappingPartitions "a" "b")) ∧
    (partSpanA ≠ partSpanB2 ∧ partSpanA.name ≠ partSpanB2.name ∧
      validateStage123 [partSpanA, partSpanB2] = none ∧
      validateEach [partSpanA, partSpanB2] = none ∧
      validate [partSpanA, partSpanB2] = .ok ()) :=
  ⟨⟨by decide, by decide, by decide, by decide, by decide, by decide,
    (c8_overlap_amended partSpanA partSpanB1 (by decide) (by decide)
      (by decide) (by decide) (by decide) (by decide)).1.mpr (by decide)⟩,
   ⟨by decide, by decide, by decide, by decide,
    (c8_overlap_amended partSpanA partSpanB2 (by decide) (by decide)
      (by decide) (by decide) (by decide) (by decide)).2.mpr (by decide)⟩⟩

theorem roundUp_eq (c a : Nat) (ha : 0 < a) :
    (if c % a ≠ 0 then c + a - c % a else c) = specRoundUp c a := by
  unfold specRoundUp
  by_cases h : c % a = 0
  · rw [if_neg (by simpa using h), if_pos h]
  · rw [if_pos h, if_neg h]
    have hd := Nat.div_add_mod c a
    have hlt : c % a < a := Nat.mod_lt c ha
    calc c + a - c % a = (a * (c / a) + c % a) + a - c % a := by rw [hd]
      _ = a * (c / a) + a := by omega
      _ = (c / a + 1) * a := by ring

theorem addU32_some (a b s : Nat) (h : addU32 a b = some s) :
    s = a + b ∧ a + b ≤ U32_MAX := by
  unfold addU32 at h
  by_cases hle : a + b ≤ U32_MAX
  · rw [if_pos hle] at h
    injection h with h2
    exact ⟨h2.symm, hle⟩
  · rw [if_neg hle] at h
    exact absurd h (by simp)

theorem fixOffset_some_ok (r : DeserializedCsvPartition) (cursor o c : Nat)
    (ho : r.offset = some o) (hc : addU32 o r.size = some c) :
    fixOffset r cursor = .ok (r, c) := by
  simp [fixOffset, ho, hc]

theorem fixOffset_some_panic (r : DeserializedCsvPartition) (cursor o : Nat)
    (ho : r.offset = some o) (hc : addU32 o r.size = none) :
    fixOffset r cursor = .panicked := by
  simp [fixOffset, ho, hc]

/-- The `fix_offset` cursor pass agrees with the spec's forward pass on
every run on which it does not panic. -/
theorem fixOffsetsAll_spec (recs : List DeserializedCsvPartition) :
    ∀ (cursor : Nat) (out : List DeserializedCsvPartition),
      fixOffsetsAll cursor recs = .ok out →
      out.map DeserializedCsvPartition.offset =
        (specAssignOffsets cursor (recs.map
          (fun r => (r.offset, r.size, r.ty == PartType.App)))).map some := by
  induction recs with
  | nil =>
    intro cursor out hok
    have h2 : Res.ok ([] : List DeserializedCsvPartition) = .ok out := hok
    injection h2 with h3
    rw [← h3]
    rfl
  | cons r rest ih =>
    intro cursor out hok
    unfold fixOffsetsAll at hok
    have halign : (if (r.ty == PartType.App) = true then (0x10000 : Nat)
        else 4) = (if r.ty = PartType.App then APP_PARTITION_ALIGNMENT
        else 4) := by
      by_cases h : r.ty = PartType.App <;>
        simp [h, APP_PARTITION_ALIGNMENT]
    have hpos : 0 < (if r.ty = PartType.App then APP_PARTITION_ALIGNMENT
        else 4) := by
      by_cases h : r.ty = PartType.App <;>
        simp [h, APP_PARTITION_ALIGNMENT]
    cases ho : r.offset with
    | some o =>
      cases hc : addU32 o r.size with
      | none =>
        rw [fixOffset_some_panic r cursor o ho hc] at hok
        exact absurd hok (by simp)
      | some c =>
        rw [fixOffset_some_ok r cursor o c ho hc] at hok
        obtain ⟨hce, _⟩ := addU32_some o r.size c hc
        have hok2 : (match fixOffsetsAll c rest with
          | .ok out2 => Res.ok (r :: out2)
          | other => other) = Res.ok out := hok
        cases hrest : fixOffsetsAll c rest with
        | err e =>
          rw [hrest] at hok2
          exact Res.noConfusion hok2
        | panicked =>
          rw [hrest] at hok2
          exact Res.noConfusion hok2
        | ok out2 =>
          rw [hrest] at hok2
          have h2 : Res.ok (r :: out2) = Res.ok out := hok2
          injection h2 with h3
          rw [← h3]
          have hspec := ih c out2 hrest
          rw [hce] at hspec
          simp only [List.map_cons, specAssignOffsets, ho, hspec]
    | none =>
      by_cases hmod : cursor % (if r.ty = PartType.App then
          APP_PARTITION_ALIGNMENT else 4) = 0
      · have hru : specRoundUp cursor (if r.ty = PartType.App then
            APP_PARTITION_ALIGNMENT else 4) = cursor := by
          simp [specRoundUp, hmod]
        cases hc : addU32 cursor r.size with
        | none =>
          have hfix : fixOffset r cursor = .panicked := by
            simp [fixOffset, ho, hmod, hc]
          rw [hfix] at hok
          exact absurd hok (by simp)
        | some c =>
          have hfix : fixOffset r cursor =
              .ok ({ r with offset := some cursor }, c) := by
            simp [fixOffset, ho, hmod, hc]
          rw [hfix] at hok
          obtain ⟨hce, _⟩ := addU32_some cursor r.size c hc
          have hok2 : (match fixOffsetsAll c rest with
            | .ok out2 => Res.ok ({ r with offset := some cursor } :: out2)
            | other => other) = Res.ok out := hok
          cases hrest : fixOffsetsAll c rest with
          | err e =>
            rw [hrest] at hok2
            exact Res.noConfusion hok2
          | panicked =>
            rw [hrest] at hok2
            exact Res.noConfusion hok2
          | ok out2 =>
            rw [hrest] at hok2
            have h2 : Res.ok ({ r with offset := some cursor } :: out2) =
                Res.ok out := hok2
            injection h2 with h3
            rw [← h3]
            have hspec := ih c out2 hrest
            rw [hce] at hspec
            simp only [List.map_cons, specAssignOffsets, ho, halign,
              hru, hspec]
      · have hroundup := roundUp_eq cursor
          (if r.ty = PartType.App then APP_PARTITION_ALIGNMENT else 4) hpos
        rw [if_pos hmod] at hroundup
        cases h1 : addU32 cursor
            (if r.ty = PartType.App then APP_PARTITION_ALIGNMENT else 4) with
        | none =>
          have hfix : fixOffset r cursor = .panicked := by
            simp [fixOffset, ho, hmod, h1]
          rw [hfix] at hok
          exact absurd hok (by simp)
        | some s =>
          obtain ⟨hse, _⟩ := addU32_some cursor _ s h1
          have hso : s - cursor % (if r.ty = PartType.App then
              APP_PARTITION_ALIGNMENT else 4) = specRoundUp cursor
              (if r.ty = PartType.App then APP_PARTITION_ALIGNMENT
                else 4) := by
            rw [hse, hroundup]
          cases hc : addU32 (specRoundUp cursor (if r.ty = PartType.App
              then APP_PARTITION_ALIGNMENT else 4)) r.size with
          | none =>
            have hfix : fixOffset r cursor = .panicked := by
              simp [fixOffset, ho, hmod, h1, hso, hc]
            rw [hfix] at hok
            exact absurd hok (by simp)
          | some c =>
            have hfix : fixOffset r cursor =
                .ok ({ r with offset := some (specRoundUp cursor
                  (if r.ty = PartType.App then APP_PARTITION_ALIGNMENT
                    else 4)) }, c) := by
              simp [fixOffset, ho, hmod, h1, hso, hc]
            rw [hfix] at hok
            obtain ⟨hce, _⟩ := addU32_some _ r.size c hc
            have hok2 : (match fixOffsetsAll c rest with
              | .ok out2 => Res.ok ({ r with offset := some (specRoundUp
                  cursor (if r.ty = PartType.App then
                    APP_PARTITION_ALIGNMENT else 4)) } :: out2)
              | other => other) = Res.ok out := hok
            cases hrest : fixOffsetsAll c rest with
            | err e =>
              rw [hrest] at hok2
              exact Res.noConfusion hok2
            | panicked =>
              rw [hrest] at hok2
              exact Res.noConfusion hok2
            | ok out2 =>
              rw [hrest] at hok2
              have h2 : Res.ok ({ r with offset := some (specRoundUp cursor
                  (if r.ty = PartType.App then APP_PARTITION_ALIGNMENT
                    else 4)) } :: out2) = Res.ok out := hok2
              injection h2 with h3
              rw [← h3]
              have hspec := ih c out2 hrest
              rw [hce] at hspec
              simp only [List.map_cons, specAssignOffsets, ho, halign,
                hspec]

/-- C5 counterexample — the claimed "single forward pass … the cursor then
advances to `offset + size`" is not total: the additions are `u32`.  A
record with present offset `0xFFFFFFF0` and size `0x100` makes
`fix_offset` panic on `offset.unwrap() + self.size` (debug builds;
release builds would wrap), while the spec's described pass assigns the
offset and continues. -/
theorem c5_offset_assignment_counterexample :
    specAssignOffsets 0x9000 ([rowHugeOffset].map
      (fun r => (r.offset, r.size, r.ty == PartType.App))) = [0xFFFFFFF0] ∧
    fixOffset rowHugeOffset 0x9000 = .panicked ∧
    fixOffsetsAll 0x9000 [rowHugeOffset] = .panicked := by
  decide

/-- C5 (amended) — on every run on which no cursor addition overflows
`u32` (`fixOffsetsAll` returns `ok` rather than panicking), text decoding
assigns offsets in a single forward pass exactly as the spec describes:
an absent offset receives the cursor rounded up to `0x10000` for App rows
and 4 bytes for all other types, a present offset is used unchanged, and
the cursor then advances to `offset + size`.  In particular, from cursor
`0x9000`, a data row with no offset and size `0x6000` is assigned offset
`0x9000` and the cursor advances to `0xF000`. -/
theorem c5_offset_assignment :
    (∀ (recs : List DeserializedCsvPartition) (cursor : Nat)
        (out : List DeserializedCsvPartition),
      fixOffsetsAll cursor recs = .ok out →
      out.map DeserializedCsvPartition.offset =
        (specAssignOffsets cursor (recs.map
          (fun r => (r.offset, r.size, r.ty == PartType.App)))).map some) ∧
    fixOffset rowNoOffset 0x9000 =
      .ok ({ rowNoOffset with offset := some 0x9000 }, 0xF000) :=
  ⟨fun recs cursor out hok => fixOffsetsAll_spec recs cursor out hok,
    by decide⟩

/-- C5 witness — the spec's concrete example through the amended theorem:
the pass over the single no-offset data row from cursor `0x9000` returns
`ok` and its assigned offsets match the spec pass. -/
theorem c5_offset_assignment_witness :
    fixOffsetsAll 0x9000 [rowNoOffset] =
      .ok [{ rowNoOffset with offset := some 0x9000 }] ∧
    ([{ rowNoOffset with offset := some 0x9000 }].map
        DeserializedCsvPartition.offset) =
      (specAssignOffsets 0x9000 ([rowNoOffset].map
        (fun r => (r.offset, r.size, r.ty == PartType.App)))).map some :=
  ⟨by decide, c5_offset_assignment.1 [rowNoOffset] 0x9000
    [{ rowNoOffset with offset := some 0x9000 }] (by decide)⟩

/-- Decoding a single-row table, with each stage's result given. -/
theorem tryFromCsvRows_single (row : CsvRow)
    (rec rec2 : DeserializedCsvPartition) (cur2 : Nat) (p : Partition)
    (hrow : deserializeRow row = .ok rec)
    (hfix : fixOffset rec 0x9000 = .ok (rec2, cur2))
    (hp : partitionOfCsv rec2 = some p)
    (hv : validate [p] = .ok ()) :
    tryFromCsvRows [row] = .ok [p] := by
  unfold tryFromCsvRows tryFromCsvRowsGo
  rw [hrow]
  show (match fixOffset rec 0x9000 with
    | .err e => Res.err e
    | .panicked => Res.panicked
    | .ok fixed =>
      match partitionOfCsv fixed.1 with
      | none => Res.panicked
      | some p => tryFromCsvRowsGo [] fixed.2 ([] ++ [p])) = _
  rw [hfix]
  show (match partitionOfCsv rec2 with
    | none => Res.panicked
    | some p => tryFromCsvRowsGo [] cur2 ([] ++ [p])) = _
  rw [hp]
  show tryFromCsvRowsGo [] cur2 ([] ++ [p]) = _
  unfold tryFromCsvRowsGo
  simp [hv]

/-- C3 counterexample — the flags token `"foo"` is neither `"encrypted"`
nor `"readonly"`, yet text decoding succeeds (with no flags set) instead
of failing with a format error: `deserialize_partition_flags` merely
compares the whole field against `"encrypted"` and never errors. -/
theorem c3_flags_counterexample :
    tryFromCsvRows [rowFlagsTest "foo"] = .ok [partFactory] := by
  decide

/-- C3 (amended) — the flags column never causes text decoding to fail:
the whole field (NULs trimmed, not split at colons) is compared against
`"encrypted"`; when equal the partition gets the ENCRYPTED flag, and any
other content — empty, `"readonly"`, unknown tokens, or colon-joined
lists — yields no flags set. -/
theorem c3_flags_amended (s : String) :
    tryFromCsvRows [rowFlagsTest s] =
      .ok [{ partFactory with
        flags := if trimNulls s = "encrypted" then ENCRYPTED else 0 }] := by
  have ht : deserializePartitionType "app" = .ok .App := rfl
  have hsub : deserializePartitionSubtype "factory" = .ok (.App 0x00) := rfl
  have hoff : deserializeOffsetOrSize "0x10000" = .ok (some 0x10000) := rfl
  have e1 : deserializeRow (rowFlagsTest s) = .ok
      { name := deserializePartitionName "factory", ty := .App,
        subtype := .App 0x00, offset := some 0x10000, size := 0x10000,
        encrypted := deserializePartitionFlags s } := by
    simp only [deserializeRow, rowFlagsTest, ht, hsub, hoff]
  cases hb : deserializePartitionFlags s with
  | false =>
    have hs : ¬ trimNulls s = "encrypted" := by
      simpa [deserializePartitionFlags] using hb
    rw [if_neg hs]
    rw [hb] at e1
    exact tryFromCsvRows_single _ _
      ({ name := deserializePartitionName "factory", ty := .App,
         subtype := .App 0x00, offset := some 0x10000, size := 0x10000,
         encrypted := false }) 0x20000 _ e1 (by decide) (by decide)
      (by decide)
  | true =>
    have hs : trimNulls s = "encrypted" := by
      simpa [deserializePartitionFlags] using hb
    rw [if_pos hs]
    rw [hb] at e1
    exact tryFromCsvRows_single _ _
      ({ name := deserializePartitionName "factory", ty := .App,
         subtype := .App 0x00, offset := some 0x10000, size := 0x10000,
         encrypted := true }) 0x20000 _ e1 (by decide) (by decide)
      (by decide)

theorem dropWhile_nul_replicate (k : Nat) :
    List.dropWhile (fun c => c = Char.ofNat 0)
      (List.replicate k (Char.ofNat 0)) = [] := by
  induction k with
  | zero => rfl
  | succ n ih => simpa [List.replicate_succ, List.dropWhile_cons] using ih

theorem map_ofNat_toNat (l : List Char) :
    l.map (fun c => Char.ofNat c.toNat) = l := by
  induction l with
  | nil => rfl
  | cons c cs ih => simp [Char.ofNat_toNat, ih]

theorem trim_pad (s : String) (k : Nat)
    (hs : ∀ c ∈ s.data, 33 ≤ c.toNat) :
    trimNulls (bytesToStr (strBytes s ++ List.replicate k 0)) = s := by
  have hid : (strBytes s ++ List.replicate k 0).map Char.ofNat =
      s.data ++ List.replicate k (Char.ofNat 0) := by
    simp only [List.map_append, List.map_replicate, strBytes,
      List.map_map]
    rw [show Char.ofNat ∘ Char.toNat = fun c => Char.ofNat c.toNat from rfl,
      map_ofNat_toNat]
  unfold trimNulls bytesToStr
  rw [hid]
  have hnn : ∀ c ∈ s.data, ¬(c = Char.ofNat 0) := by
    intro c hc h
    have := hs c hc
    rw [h] at this
    simp [Char.ofNat] at this
  have hfront : (s.data ++ List.replicate k (Char.ofNat 0)).dropWhile
      (fun c => c = Char.ofNat 0) =
      s.data ++ List.replicate k (Char.ofNat 0) ∨ s.data = [] := by
    cases hsd : s.data with
    | nil => exact Or.inr rfl
    | cons c rest =>
      left
      have hcn := hnn c (by rw [hsd]; simp)
      simp [List.dropWhile_cons, hcn]
  rcases hfront with hfront | hempty
  · rw [hfront, List.reverse_append, List.reverse_replicate,
      List.dropWhile_append, dropWhile_nul_replicate]
    simp only [List.isEmpty_nil, if_true]
    cases hsd : s.data.reverse with
    | nil =>
      have hde : s.data = [] := by simpa using congrArg List.reverse hsd
      cases s with
      | mk data => simp_all
    | cons c rest =>
      have hcmem : c ∈ s.data := by
        have : c ∈ s.data.reverse := by rw [hsd]; simp
        simpa using this
      have hcn := hnn c hcmem
      simp only [List.dropWhile_cons, hcn]
      simp only [decide_eq_true_eq, if_neg hcn]
      rw [← hsd]
      cases s with
      | mk data => simp
  · rw [hempty]
    simp only [List.nil_append, dropWhile_nul_replicate]
    cases s with
    | mk data => simp_all

theorem parseBinRecord_writeBin (p : Partition)
    (ho : p.offset ≤ U32_MAX) (hs : p.size ≤ U32_MAX)
    (hf : p.flags = 0 ∨ p.flags = ENCRYPTED) :
    parseBinRecord (writeBin p) = .ok
      { ty := typeToU8 p.ty, subtype := subTypeToU8 p.subtype,
        offset := some p.offset, size := p.size,
        name := padName16 p.name, encrypted := decide (p.flags = ENCRYPTED) } := by
  have e1 := fromLe32_le32 p.offset ho
  have e2 := fromLe32_le32 p.size hs
  have htake : (padName16 p.name ++ le32 p.flags).take 16 = padName16 p.name :=
    List.take_left' (padName16_length p.name)
  have hdrop : (padName16 p.name ++ le32 p.flags).drop 16 = le32 p.flags :=
    List.drop_left' (padName16_length p.name)
  rcases hf with h0 | h1
  · rw [h0]
    simp only [writeBin, MAGIC_BYTES, le32, h0, List.cons_append,
      List.nil_append]
    have hd0 : (padName16 p.name ++ [0 % 256, 0 / 256 % 256, 0 / 65536 % 256,
        0 / 16777216 % 256]).drop 16 = [0, 0, 0, 0] := by
      have h := @List.drop_left' Nat (padName16 p.name)
        [0 % 256, 0 / 256 % 256, 0 / 65536 % 256, 0 / 16777216 % 256]
        16 (padName16_length p.name)
      simpa using h
    have ht0 : (padName16 p.name ++ [0 % 256, 0 / 256 % 256, 0 / 65536 % 256,
        0 / 16777216 % 256]).take 16 = padName16 p.name :=
      List.take_left' (padName16_length p.name)
    simp [parseBinRecord, hd0, ht0, e1, e2, h0, ENCRYPTED]
  · rw [h1]
    simp only [writeBin, MAGIC_BYTES, le32, h1, List.cons_append,
      List.nil_append]
    have hd1 : (padName16 p.name ++ [1 % 256, 1 / 256 % 256, 1 / 65536 % 256,
        1 / 16777216 % 256]).drop 16 = [1, 0, 0, 0] := by
      have h := @List.drop_left' Nat (padName16 p.name)
        [1 % 256, 1 / 256 % 256, 1 / 65536 % 256, 1 / 16777216 % 256]
        16 (padName16_length p.name)
      simpa using h
    have ht1 : (padName16 p.name ++ [1 % 256, 1 / 256 % 256, 1 / 65536 % 256,
        1 / 16777216 % 256]).take 16 = padName16 p.name :=
      List.take_left' (padName16_length p.name)
    simp [parseBinRecord, hd1, ht1, e1, e2, h1, ENCRYPTED]

theorem name_take_eq (s : String) (hlen : s.data.length ≤ 16) :
    (strBytes s).take 16 = strBytes s :=
  List.take_of_length_le (by simpa [strBytes] using hlen)

theorem partitionOfBin_writeBin (p : Partition) (hw : wfPartition p = true) :
    partitionOfBin
      { ty := typeToU8 p.ty, subtype := subTypeToU8 p.subtype,
        offset := some p.offset, size := p.size,
        name := padName16 p.name,
        encrypted := decide (p.flags = ENCRYPTED) } = some p := by
  cases p with
  | mk nm ty st off sz fl =>
    simp only [wfPartition, Bool.and_eq_true, Bool.or_eq_true,
      decide_eq_true_eq] at hw
    obtain ⟨⟨⟨⟨⟨hname, hpair⟩, _ho⟩, _hs⟩, _hext⟩, hflags⟩ := hw
    simp only [wfName, Bool.and_eq_true, decide_eq_true_eq,
      List.all_eq_true] at hname
    obtain ⟨hlen, hchars⟩ := hname
    have hnm : trimNulls (bytesToStr (padName16 nm)) = nm := by
      unfold padName16
      show trimNulls (bytesToStr ((strBytes nm).take 16
        ++ List.replicate (16 - (strBytes nm).length) 0)) = nm
      rw [name_take_eq nm hlen]
      exact trim_pad nm _ (fun c hc => ((hchars c hc).1.1.1.1.1))
    have hfl : (if fl = ENCRYPTED then ENCRYPTED else 0) = fl := by
      rcases hflags with h0 | h1
      · rw [h0]; simp [ENCRYPTED]
      · rw [h1]; simp
    cases ty with
    | App =>
      cases st with
      | App n =>
        have hmem : n ∈ appTypeReprs := by simpa using hpair
        simp [partitionOfBin, typeToU8, typeFromU8, subTypeToU8, subTypeApp,
          appTypeFromRepr, hmem, hnm, hfl]
      | Data n => simp at hpair
      | Custom n => simp at hpair
    | Data =>
      cases st with
      | Data n =>
        have hmem : n ∈ dataTypeReprs := by simpa using hpair
        simp [partitionOfBin, typeToU8, typeFromU8, subTypeToU8, subTypeData,
          dataTypeFromRepr, hmem, hnm, hfl]
      | App n => simp at hpair
      | Custom n => simp at hpair
    | Custom t =>
      cases st with
      | Custom n =>
        have hp2 : (2 ≤ t ∧ t ≤ 0xFE) ∧ n ≤ 0xFF := by simpa using hpair
        have hty : typeFromU8 t = PartType.Custom t := by
          simp only [typeFromU8]
          rw [if_neg (by omega), if_neg (by omega)]
        simp [partitionOfBin, typeToU8, subTypeToU8, hty, hnm, hfl]
      | App n => simp at hpair
      | Data n => simp at hpair

theorem records_length (ps : List Partition) :
    ((ps.map writeBin).flatten).length = 32 * ps.length := by
  have h := flatten_length_32 (ps.map writeBin) (by
    intro l hl
    obtain ⟨p, _, hp⟩ := List.mem_map.mp hl
    rw [← hp]
    exact writeBin_length p)
  simpa using h

theorem binRecordOk_writeBin (p : Partition) (hw : wfPartition p = true) :
    binRecordOk (writeBin p) = true ∧ decodeRecord (writeBin p) = some p := by
  have hw2 := hw
  simp only [wfPartition, Bool.and_eq_true, Bool.or_eq_true,
    decide_eq_true_eq] at hw2
  obtain ⟨⟨⟨⟨⟨_hname, _hpair⟩, ho⟩, hs⟩, _hext⟩, hflags⟩ := hw2
  have hparse := parseBinRecord_writeBin p ho hs (by
    rcases hflags with h | h
    · exact Or.inl h
    · exact Or.inr h)
  have hconv := partitionOfBin_writeBin p hw
  have hmagic : ¬((writeBin p).take 16 = MD5_PART_MAGIC_BYTES) := by
    intro heq
    have h0 := congrArg (fun l => l[0]?) heq
    simp only [List.getElem?_take, writeBin, MAGIC_BYTES,
      MD5_PART_MAGIC_BYTES] at h0
    simp at h0
  have hend : ¬(writeBin p = END_MARKER) := by
    intro heq
    have h0 := congrArg (fun l => l[0]?) heq
    simp only [writeBin, MAGIC_BYTES, END_MARKER] at h0
    simp [List.getElem?_replicate] at h0
  constructor
  · simp [binRecordOk, writeBin_length, hmagic, hend, hparse, hconv]
  · simp [decodeRecord, hparse, hconv]

theorem filterMap_decode_map_writeBin (ps : List Partition)
    (h : ∀ p ∈ ps, decodeRecord (writeBin p) = some p) :
    (ps.map writeBin).filterMap decodeRecord = ps := by
  induction ps with
  | nil => rfl
  | cons p rest ih =>
    simp only [List.map_cons, List.filterMap_cons, h p (by simp)]
    rw [ih (fun q hq => h q (by simp [hq]))]

theorem chunks32_replicate_ff (m : Nat) :
    chunks32 (List.replicate (32 * m) 0xFF) = List.replicate m END_MARKER := by
  induction m with
  | zero => simp [chunks32]
  | succ k ih =>
    have hsplit : List.replicate (32 * (k + 1)) (0xFF : Nat) =
        List.replicate 32 0xFF ++ List.replicate (32 * k) 0xFF := by
      rw [← List.replicate_add]
      congr 1
      ring
    rw [hsplit, chunks32_append _ _ (by simp), ih]
    rfl

theorem toBin_tryFromBytes (ps : List Partition)
    (hw : ∀ p ∈ ps, wfPartition p = true)
    (hn : ps.length ≤ 94)
    (hval : validate ps = .ok ()) :
    ∃ bs, toBin ps = .ok bs ∧ tryFromBytes bs = .ok ps := by
  have hok : ∀ l ∈ ps.map writeBin, binRecordOk l = true := by
    intro l hl
    obtain ⟨p, hp, hpe⟩ := List.mem_map.mp hl
    rw [← hpe]
    exact (binRecordOk_writeBin p (hw p hp)).1
  have hdec : (ps.map writeBin).filterMap decodeRecord = ps :=
    filterMap_decode_map_writeBin ps
      (fun p hp => (binRecordOk_writeBin p (hw p hp)).2)
  have hlens : ∀ l ∈ ps.map writeBin, l.length = 32 :=
    fun l hl => binRecordOk_length l (hok l hl)
  have h16 : MD5_PART_MAGIC_BYTES.length = 16 := rfl
  unfold toBin
  rw [if_neg (by simp only [PARTITION_SIZE]; omega)]
  refine ⟨_, rfl, ?_⟩
  have hrec := records_length ps
  have hpad : 0xC00 - (ps.length * PARTITION_SIZE + 32) =
      32 * (95 - ps.length) := by
    simp only [PARTITION_SIZE]
    omega
  unfold tryFromBytes
  rw [if_neg (by
    simp only [List.length_append, hrec, h16, md5_length,
      List.length_replicate, PARTITION_SIZE]
    omega)]
  have hgroup : (ps.map writeBin).flatten ++ MD5_PART_MAGIC_BYTES
      ++ md5 ((ps.map writeBin).flatten)
      ++ List.replicate (0xC00 - (ps.length * PARTITION_SIZE + 32)) 0xFF =
      (ps.map writeBin).flatten ++
        ((MD5_PART_MAGIC_BYTES ++ md5 ((ps.map writeBin).flatten)) ++
          List.replicate (32 * (95 - ps.length)) 0xFF) := by
    rw [hpad]
    simp [List.append_assoc]
  rw [hgroup, chunks32_flatten _ _ hlens,
    chunks32_append _ _ (by simp [h16, md5_length]),
    chunks32_replicate_ff,
    tryFromBytesGo_records (ps.map writeBin) hok _ [] [], hdec]
  simp only [List.nil_append]
  show tryFromBytesGo ((MD5_PART_MAGIC_BYTES ++ md5 ((ps.map writeBin).flatten))
      :: List.replicate (95 - ps.length) END_MARKER) ps
      ((ps.map writeBin).flatten) = .ok ps
  unfold tryFromBytesGo
  rw [if_pos (List.take_left' h16),
    if_neg (by
      rw [List.drop_left' h16, List.take_of_length_le (by simp [md5_length])]
      simp)]
  have hm : ∃ k, 95 - ps.length = k + 1 := ⟨94 - ps.length, by omega⟩
  obtain ⟨k, hk⟩ := hm
  rw [hk]
  show tryFromBytesGo (END_MARKER :: List.replicate k END_MARKER) ps
      ((ps.map writeBin).flatten) = .ok ps
  unfold tryFromBytesGo
  rw [if_neg (by decide), if_neg (by simp)]
  rw [hval]

theorem hexCharsFuel_congr : ∀ f1 f2 n, n < f1 → n < f2 →
    hexCharsFuel f1 n = hexCharsFuel f2 n := by
  intro f1
  induction f1 with
  | zero => intro f2 n h1; omega
  | succ a ih =>
    intro f2 n h1 h2
    cases f2 with
    | zero => omega
    | succ b =>
      show (if n < 16 then _ else hexCharsFuel a (n / 16) ++ _) =
        (if n < 16 then _ else hexCharsFuel b (n / 16) ++ _)
      by_cases hn : n < 16
      · rw [if_pos hn, if_pos hn]
      · rw [if_neg hn, if_neg hn]
        have hdiv : n / 16 < n := Nat.div_lt_self (by omega) (by omega)
        rw [ih b (n / 16) (by omega) (by omega)]

theorem hexChars_eq (n : Nat) : hexChars n =
    (if n < 16 then
      [Char.ofNat (if n % 16 < 10 then 48 + n % 16 else 87 + n % 16)]
    else hexChars (n / 16) ++
      [Char.ofNat (if n % 16 < 10 then 48 + n % 16 else 87 + n % 16)]) := by
  show hexCharsFuel (n + 1) n = _
  by_cases hn : n < 16
  · rw [if_pos hn]
    show (if n < 16 then _ else _) = _
    rw [if_pos hn]
  · rw [if_neg hn]
    show (if n < 16 then _ else hexCharsFuel n (n / 16) ++ _) = _
    rw [if_neg hn]
    have hdiv : n / 16 < n := Nat.div_lt_self (by omega) (by omega)
    rw [hexCharsFuel_congr n (n / 16 + 1) (n / 16) hdiv (by omega)]
    rfl

theorem digitVal_hexDigit (m : Nat) (hm : m < 16) :
    digitVal 16 (Char.ofNat (if m < 10 then 48 + m else 87 + m)) = some m := by
  interval_cases m <;> decide

theorem hexChars_ne_nil (n : Nat) : hexChars n ≠ [] := by
  rw [hexChars_eq n]
  by_cases hn : n < 16
  · rw [if_pos hn]; simp
  · rw [if_neg hn]; simp

theorem foldl_hexChars (n : Nat) : ∀ a : Nat,
    (hexChars n).foldl (fun acc c =>
      match acc, digitVal 16 c with
      | some x, some d => some (16 * x + d)
      | _, _ => none) (some a) =
      some (a * 16 ^ (hexChars n).length + n) := by
  induction n using Nat.strong_induction_on with
  | _ n ih =>
    intro a
    rw [hexChars_eq n]
    by_cases hn : n < 16
    · rw [if_pos hn]
      simp only [List.foldl_cons, List.foldl_nil, List.length_cons,
        List.length_nil]
      rw [digitVal_hexDigit (n % 16) (by omega)]
      have : n % 16 = n := Nat.mod_eq_of_lt hn
      rw [this]
      simp
      ring
    · rw [if_neg hn]
      rw [List.foldl_append]
      have hdiv : n / 16 < n := Nat.div_lt_self (by omega) (by omega)
      rw [ih (n / 16) hdiv a]
      simp only [List.foldl_cons, List.foldl_nil]
      rw [digitVal_hexDigit (n % 16) (by omega)]
      show some (16 * (a * 16 ^ (hexChars (n / 16)).length + n / 16)
        + n % 16) = some _
      congr 1
      simp only [List.length_append, List.length_cons, List.length_nil]
      have hmod := Nat.div_add_mod n 16
      have hL : (hexChars (n / 16)).length + (0 + 1) =
          (hexChars (n / 16)).length + 1 := by omega
      rw [hL, pow_succ]
      calc 16 * (a * 16 ^ (hexChars (n / 16)).length + n / 16) + n % 16
          = a * (16 ^ (hexChars (n / 16)).length * 16)
            + (16 * (n / 16) + n % 16) := by ring
        _ = a * (16 ^ (hexChars (n / 16)).length * 16) + n := by
            rw [hmod]

theorem parseDigits_hexChars (n : Nat) :
    parseDigits 16 (hexChars n) = some n := by
  have hne := hexChars_ne_nil n
  have hfold := foldl_hexChars n 0
  cases hc : hexChars n with
  | nil => exact absurd hc hne
  | cons c cs =>
    show (c :: cs).foldl _ (some 0) = some n
    rw [← hc, hfold]
    simp

theorem parseUint_fmtHex (max n : Nat) (h : n ≤ max) :
    parseUint max (fmtHex n) = some n := by
  unfold parseUint fmtHex
  show (match parseDigits 16 (hexChars n) with
    | some v => if v ≤ max then some v else none
    | none => none) = some n
  rw [parseDigits_hexChars n]
  simp [h]

theorem fmtHex_ne_empty (n : Nat) : fmtHex n ≠ "" := by
  unfold fmtHex
  intro h
  have := congrArg String.data h
  simp at this

theorem offsetOrSize_fmtHex (n : Nat) (h : n ≤ U32_MAX) :
    deserializeOffsetOrSize (fmtHex n) = .ok (some n) := by
  unfold deserializeOffsetOrSize
  rw [if_neg (fmtHex_ne_empty n), parseUint_fmtHex U32_MAX n h]

theorem typeParse_custom : ∀ t : Nat, t < 256 → 2 ≤ t → t ≤ 0xFE →
    deserializePartitionType (fmtHex2 t) = .ok (.Custom t) := by
  decide

theorem subtypeParse_app : ∀ n ∈ appTypeReprs,
    deserializePartitionSubtype (appTypeName n) = .ok (.App n) := by
  decide

theorem subtypeParse_data : ∀ n ∈ dataTypeReprs,
    deserializePartitionSubtype (dataTypeName n) = .ok (.Data n) := by
  decide

theorem subtypeParse_custom : ∀ n : Nat, n < 256 →
    deserializePartitionSubtype (fmtHex2 n) = .ok (.Custom n) := by
  decide

theorem flagsDisplay_roundtrip (fl : Nat) (hf : fl = 0 ∨ fl = ENCRYPTED) :
    deserializePartitionFlags (flagsDisplay fl) = decide (fl = ENCRYPTED) := by
  rcases hf with h | h <;> subst h <;> decide

theorem deserializeRow_writeCsvRow (p : Partition) (hw : wfPartition p = true) :
    deserializeRow (writeCsvRow p) = .ok
      { name := deserializePartitionName p.name, ty := p.ty,
        subtype := p.subtype, offset := some p.offset, size := p.size,
        encrypted := decide (p.flags = ENCRYPTED) } := by
  cases p with
  | mk nm ty st off sz fl =>
    simp only [wfPartition, Bool.and_eq_true, Bool.or_eq_true,
      decide_eq_true_eq] at hw
    obtain ⟨⟨⟨⟨⟨_hname, hpair⟩, ho⟩, hs⟩, _hext⟩, hflags⟩ := hw
    have hoff := offsetOrSize_fmtHex off ho
    have hsz := offsetOrSize_fmtHex sz hs
    have hfl := flagsDisplay_roundtrip fl hflags
    cases ty with
    | App =>
      cases st with
      | App n =>
        have hmem : n ∈ appTypeReprs := by simpa using hpair
        have hst := subtypeParse_app n hmem
        have hty : deserializePartitionType "app" = .ok .App := rfl
        simp [deserializeRow, writeCsvRow, typeDisplay, subTypeDisplay,
          hty, hst, hoff, hsz, hfl]
      | Data n => simp at hpair
      | Custom n => simp at hpair
    | Data =>
      cases st with
      | Data n =>
        have hmem : n ∈ dataTypeReprs := by simpa using hpair
        have hst := subtypeParse_data n hmem
        have hty : deserializePartitionType "data" = .ok .Data := rfl
        simp [deserializeRow, writeCsvRow, typeDisplay, subTypeDisplay,
          hty, hst, hoff, hsz, hfl]
      | App n => simp at hpair
      | Custom n => simp at hpair
    | Custom t =>
      cases st with
      | Custom n =>
        have hp2 : (2 ≤ t ∧ t ≤ 0xFE) ∧ n ≤ 0xFF := by simpa using hpair
        have hty := typeParse_custom t (by omega) hp2.1.1 hp2.1.2
        have hst := subtypeParse_custom n (by omega)
        simp [deserializeRow, writeCsvRow, typeDisplay, subTypeDisplay,
          hty, hst, hoff, hsz, hfl]
      | App n => simp at hpair
      | Data n => simp at hpair

theorem partitionOfCsv_rec (p : Partition) (hw : wfPartition p = true) :
    partitionOfCsv
      { name := deserializePartitionName p.name, ty := p.ty,
        subtype := p.subtype, offset := some p.offset, size := p.size,
        encrypted := decide (p.flags = ENCRYPTED) } = some p := by
  cases p with
  | mk nm ty st off sz fl =>
    simp only [wfPartition, Bool.and_eq_true, Bool.or_eq_true,
      decide_eq_true_eq] at hw
    obtain ⟨⟨⟨⟨⟨hname, hpair⟩, _ho⟩, _hs⟩, _hext⟩, hflags⟩ := hw
    simp only [wfName, Bool.and_eq_true, decide_eq_true_eq,
      List.all_eq_true] at hname
    obtain ⟨hlen, hchars⟩ := hname
    have hnm : trimNulls (deserializePartitionName nm) = nm := by
      unfold deserializePartitionName
      show trimNulls (bytesToStr ((strBytes nm).take MAX_NAME_LEN
        ++ List.replicate (17 - ((strBytes nm).take MAX_NAME_LEN).length) 0))
        = nm
      rw [show MAX_NAME_LEN = 16 from rfl, name_take_eq nm hlen]
      exact trim_pad nm _ (fun c hc => ((hchars c hc).1.1.1.1.1))
    have hfl : (if fl = ENCRYPTED then ENCRYPTED else 0) = fl := by
      rcases hflags with h0 | h1
      · rw [h0]; simp [ENCRYPTED]
      · rw [h1]; simp
    cases ty with
    | App =>
      cases st with
      | App n =>
        have hmem : n ∈ appTypeReprs := by simpa using hpair
        simp [partitionOfCsv, subTypeToU8, subTypeApp, appTypeFromRepr,
          hmem, hnm, hfl]
      | Data n => simp at hpair
      | Custom n => simp at hpair
    | Data =>
      cases st with
      | Data n =>
        have hmem : n ∈ dataTypeReprs := by simpa using hpair
        simp [partitionOfCsv, subTypeToU8, subTypeData, dataTypeFromRepr,
          hmem, hnm, hfl]
      | App n => simp at hpair
      | Custom n => simp at hpair
    | Custom t =>
      cases st with
      | Custom n =>
        simp [partitionOfCsv, subTypeToU8, hnm, hfl]
      | App n => simp at hpair
      | Data n => simp at hpair

theorem wfPartition_extent (p : Partition) (hw : wfPartition p = true) :
    p.offset + p.size ≤ U32_MAX := by
  simp only [wfPartition, Bool.and_eq_true, Bool.or_eq_true,
    decide_eq_true_eq] at hw
  exact hw.1.2

theorem csvRows_decodeGo (ps : List Partition)
    (hw : ∀ p ∈ ps, wfPartition p = true) :
    ∀ (cursor : Nat) (parts : List Partition),
    tryFromCsvRowsGo (toCsvRows ps) cursor parts =
      (match validate (parts ++ ps) with
       | .err e => .err e
       | .panicked => .panicked
       | .ok () => .ok (parts ++ ps)) := by
  induction ps with
  | nil =>
    intro cursor parts
    show tryFromCsvRowsGo [] cursor parts = _
    unfold tryFromCsvRowsGo
    simp
  | cons p rest ih =>
    intro cursor parts
    have hwp := hw p (by simp)
    have hrow : deserializeRow (writeCsvRow p) = .ok (csvRecOf p) :=
      deserializeRow_writeCsvRow p hwp
    have hconv : partitionOfCsv (csvRecOf p) = some p :=
      partitionOfCsv_rec p hwp
    have hext := wfPartition_extent p hwp
    have hadd : addU32 p.offset p.size = some (p.offset + p.size) := by
      unfold addU32
      rw [if_pos hext]
    have hfix : fixOffset (csvRecOf p) cursor =
        .ok (csvRecOf p, p.offset + p.size) := by
      simp [fixOffset, csvRecOf, hadd]
    show tryFromCsvRowsGo (writeCsvRow p :: toCsvRows rest) cursor parts = _
    unfold tryFromCsvRowsGo
    rw [hrow]
    show (match fixOffset (csvRecOf p) cursor with
      | .err e => Res.err e
      | .panicked => Res.panicked
      | .ok fixed =>
        match partitionOfCsv fixed.1 with
        | none => Res.panicked
        | some q => tryFromCsvRowsGo (toCsvRows rest) fixed.2
            (parts ++ [q])) = _
    rw [hfix]
    show (match partitionOfCsv (csvRecOf p) with
      | none => Res.panicked
      | some q => tryFromCsvRowsGo (toCsvRows rest) (p.offset + p.size)
          (parts ++ [q])) = _
    rw [hconv]
    show tryFromCsvRowsGo (toCsvRows rest) (p.offset + p.size)
      (parts ++ [p]) = _
    rw [ih (fun q hq => hw q (by simp [hq])) (p.offset + p.size)
      (parts ++ [p])]
    simp [List.append_assoc]

/-- A 95-partition image: the records plus the checksum record fill all
`0xC00` bytes, so decoding exhausts the chunks without ever seeing the
all-`0xFF` end marker. -/
theorem toBin_noEndMarker_95 (ps : List Partition)
    (hw : ∀ p ∈ ps, wfPartition p = true)
    (hn : ps.length = 95) :
    ∃ bs, toBin ps = .ok bs ∧ tryFromBytes bs = .err .NoEndMarker := by
  have hok : ∀ l ∈ ps.map writeBin, binRecordOk l = true := by
    intro l hl
    obtain ⟨p, hp, hpe⟩ := List.mem_map.mp hl
    rw [← hpe]
    exact (binRecordOk_writeBin p (hw p hp)).1
  have hdec : (ps.map writeBin).filterMap decodeRecord = ps :=
    filterMap_decode_map_writeBin ps
      (fun p hp => (binRecordOk_writeBin p (hw p hp)).2)
  have hlens : ∀ l ∈ ps.map writeBin, l.length = 32 :=
    fun l hl => binRecordOk_length l (hok l hl)
  have h16 : MD5_PART_MAGIC_BYTES.length = 16 := rfl
  unfold toBin
  rw [if_neg (by rw [hn]; decide)]
  refine ⟨_, rfl, ?_⟩
  have hrec := records_length ps
  unfold tryFromBytes
  rw [if_neg (by
    simp only [List.length_append, hrec, h16, md5_length,
      List.length_replicate, PARTITION_SIZE, hn]
    omega)]
  have hpad : 0xC00 - (ps.length * PARTITION_SIZE + 32) = 0 := by
    rw [hn]
    decide
  have hgroup : (ps.map writeBin).flatten ++ MD5_PART_MAGIC_BYTES
      ++ md5 ((ps.map writeBin).flatten)
      ++ List.replicate (0xC00 - (ps.length * PARTITION_SIZE + 32)) 0xFF =
      (ps.map writeBin).flatten ++
        (MD5_PART_MAGIC_BYTES ++ md5 ((ps.map writeBin).flatten)) := by
    rw [hpad]
    simp [List.append_assoc]
  rw [hgroup, chunks32_flatten _ _ hlens,
    chunks32_exact _ (by simp [h16, md5_length]),
    tryFromBytesGo_records (ps.map writeBin) hok _ [] [], hdec]
  simp only [List.nil_append]
  show tryFromBytesGo [MD5_PART_MAGIC_BYTES
      ++ md5 ((ps.map writeBin).flatten)] ps
      ((ps.map writeBin).flatten) = .err .NoEndMarker
  unfold tryFromBytesGo
  rw [if_pos (List.take_left' h16),
    if_neg (by
      rw [List.drop_left' h16, List.take_of_length_le (by simp [md5_length])]
      simp)]
  show tryFromBytesGo [] ps ((ps.map writeBin).flatten) = .err .NoEndMarker
  rfl

/-- C1 counterexample — two validated tables that do not round-trip.
First, a table whose single partition carries the READONLY flag: the
binary image stores `flags.bits() = 2`, which the deku `bool` field
rejects (`DekuError`), and the CSV row stores `"readonly"`, which the
flags deserializer maps to *no* flags, so the decoded table differs from
the original.  Second, a well-formed validated table of 95 partitions:
its `0xC00`-byte image consists of exactly the 95 records plus the
checksum record, has no `0xFF` end-marker record, and fails binary
decoding with `NoEndMarker`.  Third, a validated app partition whose
`offset + size` exceeds `u32::MAX` makes the CSV cursor pass panic. -/
theorem c1_round_trip_counterexample :
    (validate [partReadonly] = .ok () ∧
     (match toBin [partReadonly] with
      | .ok bs => tryFromBytes bs
      | _ => .panicked) = .err (.DekuError "cannot parse bool value") ∧
     tryFromCsvRows (toCsvRows [partReadonly]) =
       .ok [{ partReadonly with flags := 0 }] ∧
     ({ partReadonly with flags := 0 } : Partition) ≠ partReadonly) ∧
    ((∀ p ∈ manyParts, wfPartition p = true) ∧
     manyParts.length = 95 ∧
     validate manyParts = .ok () ∧
     (match toBin manyParts with
      | .ok bs => tryFromBytes bs
      | _ => .panicked) = .err .NoEndMarker) ∧
    (validate [appHuge] = .ok () ∧
     appHuge.offset ≤ U32_MAX ∧ appHuge.size ≤ U32_MAX ∧
     U32_MAX < appHuge.offset + appHuge.size ∧
     tryFromCsvRows (toCsvRows [appHuge]) = .panicked) := by
  refine ⟨⟨by decide, ?_, by decide, by decide⟩,
    ⟨by decide, by decide, by decide, ?_⟩,
    by decide, by decide, by decide, by decide, by decide⟩
  unfold toBin
  rw [if_neg (by decide)]
  show tryFromBytes (([partReadonly].map writeBin).flatten
    ++ MD5_PART_MAGIC_BYTES ++ md5 (([partReadonly].map writeBin).flatten)
    ++ List.replicate (0xC00 - ([partReadonly].length * PARTITION_SIZE + 32))
      0xFF) = _
  unfold tryFromBytes
  rw [if_neg (by
    simp only [List.length_append, records_length, md5_length,
      List.length_replicate]
    decide)]
  have hgroup : ([partReadonly].map writeBin).flatten
      ++ MD5_PART_MAGIC_BYTES ++ md5 (([partReadonly].map writeBin).flatten)
      ++ List.replicate (0xC00 - ([partReadonly].length * PARTITION_SIZE
        + 32)) 0xFF =
      writeBin partReadonly ++ (MD5_PART_MAGIC_BYTES
        ++ md5 (([partReadonly].map writeBin).flatten)
        ++ List.replicate (0xC00 - ([partReadonly].length * PARTITION_SIZE
          + 32)) 0xFF) := by
    simp [List.append_assoc]
  rw [hgroup, chunks32_append _ _ (writeBin_length partReadonly)]
  show tryFromBytesGo (writeBin partReadonly :: _) [] [] = _
  unfold tryFromBytesGo
  rw [if_neg (by decide), if_pos (by decide),
    show parseBinRecord (writeBin partReadonly) =
      .error (.DekuError "cannot parse bool value") from by decide]
  obtain ⟨bs, htb, hdecode⟩ := toBin_noEndMarker_95 manyParts (by decide)
    (by decide)
  rw [htb]
  exact hdecode

/-- C1 (amended) — decode ∘ encode is the identity, in both
representations, for every validated table whose partitions are
representable by the (stale) deserializers in the tree: names of at most
16 ASCII-graphic characters (none CSV-special), matching type/subtype
pairings with valid discriminants, `u32`-ranged offsets and sizes whose
sums `offset + size` also fit in `u32` (forced by the counterexample: the
CSV cursor pass panics on an overflowing extent), flags containing at
most the ENCRYPTED bit (forced by the counterexample: the decoders only
carry an encrypted boolean), and at most 94 partitions (forced by the
counterexample: a 95-partition image has no 0xFF end-marker record and
fails with `NoEndMarker`). -/
theorem c1_round_trip (ps : List Partition)
    (hw : ∀ p ∈ ps, wfPartition p = true)
    (hn : ps.length ≤ 94)
    (hval : validate ps = .ok ()) :
    (∃ bs, toBin ps = .ok bs ∧ tryFromBytes bs = .ok ps) ∧
    tryFromCsvRows (toCsvRows ps) = .ok ps := by
  refine ⟨toBin_tryFromBytes ps hw hn hval, ?_⟩
  unfold tryFromCsvRows
  rw [csvRows_decodeGo ps hw 0x9000 []]
  simp [hval]

/-- C1 witness — a concrete two-partition table (one encrypted data
partition, one factory app partition) round-trips through both codecs. -/
theorem c1_round_trip_witness :
    (∀ p ∈ [partNvs, partFactory], wfPartition p = true) ∧
    ([partNvs, partFactory].length ≤ 94) ∧
    validate [partNvs, partFactory] = .ok () ∧
    ((∃ bs, toBin [partNvs, partFactory] = .ok bs ∧
        tryFromBytes bs = .ok [partNvs, partFactory]) ∧
      tryFromCsvRows (toCsvRows [partNvs, partFactory]) =
        .ok [partNvs, partFactory]) :=
  ⟨by decide, by decide, by decide,
    c1_round_trip [partNvs, partFactory] (by decide) (by decide) (by decide)⟩
